import Mathlib

set_option maxRecDepth 16000

/-!
Shallow embedding of the IV-tracking core of `src/utils/trackerCalculations.ts`
(pokemon-ranger).  Machine numbers in the translated region are integers
(`ℤ`/`ℕ`) except for the nature modifiers and hidden-power probabilities,
which are exact rationals (`ℚ`); the only floating-point artefacts that the
translated code can observe are the `Infinity`/`-Infinity` results of
`Math.min(...xs)` / `Math.max(...xs)` on an empty argument list, which are
modelled explicitly by the `JSVal` type below.
-/

/-- The fixed six-stat enumeration (`Stat` from `./constants`).  The source
file `constants.ts` is not part of the repository snapshot; the spec (§3)
fixes the enumeration as {hp, attack, defense, spAttack, spDefense, speed}. -/
inductive Stat where
  | hp
  | attack
  | defense
  | spAttack
  | spDefense
  | speed
deriving DecidableEq, Repr, Fintype

/-- Modelled from the spec: `STATS` from `./constants`, the fixed list of the
six stats in declaration order (§3); it drives `Object.entries` iteration
order over stat-keyed records built from it. -/
def STATS : List Stat :=
  [Stat.hp, Stat.attack, Stat.defense, Stat.spAttack, Stat.spDefense, Stat.speed]

/-- A recorded stat line (`StatLine` from `./constants`): one number per stat.
A field holds `none` where the JS object holds `undefined` (possible when a
stat line is built from a short array by `arrayToStatLine`). -/
structure StatLine where
  hp : Option ℤ
  attack : Option ℤ
  defense : Option ℤ
  spAttack : Option ℤ
  spDefense : Option ℤ
  speed : Option ℤ
deriving DecidableEq, Repr

/-- Field access `statLine[stat]`. -/
def StatLine.get (l : StatLine) : Stat → Option ℤ
  | Stat.hp => l.hp
  | Stat.attack => l.attack
  | Stat.defense => l.defense
  | Stat.spAttack => l.spAttack
  | Stat.spDefense => l.spDefense
  | Stat.speed => l.speed

/-- Modelled from the spec: a nature definition (`NatureDefinition` from
`./constants`, not in the snapshot): the decreased (`minus`) and increased
(`plus`) stat of a nature (§3, glossary). -/
structure NatureDefinition where
  minus : Stat
  plus : Stat
deriving DecidableEq, Repr

/-- The three nature-modifier regimes (the `key` field of the
`NATURE_MODIFIERS` entries). -/
inductive NatureKey where
  | negative
  | neutral
  | positive
deriving DecidableEq, Repr

/-- Modelled from the spec: `NATURE_MODIFIERS` from `./calculations` (not in
the snapshot): the three regimes with multiplicative modifiers 0.9 / 1.0 /
1.1 (§4.1), indexed 0 = negative, 1 = neutral, 2 = positive (the source
indexes it as `NATURE_MODIFIERS[0]`, `[1]`, `[2]` accordingly). -/
def NATURE_MODIFIERS : List (NatureKey × ℚ) :=
  [(NatureKey.negative, 9/10), (NatureKey.neutral, 1), (NatureKey.positive, 11/10)]

/-- The modifier attached to a regime key in `NATURE_MODIFIERS`. -/
def natureModifier (k : NatureKey) : ℚ :=
  match k with
  | NatureKey.negative => 9/10
  | NatureKey.neutral => 1
  | NatureKey.positive => 11/10

/-- A JavaScript numeric value as observable in the translated region: an
integer, or one of the two infinities produced by `Math.min()` / `Math.max()`
on an empty argument list. -/
inductive JSVal where
  | num : ℤ → JSVal
  | posInf
  | negInf
deriving DecidableEq, Repr

/-- `IVRangeSet` (source lines 31–36): one interval per regime plus the
derived `combined` interval.  The three regime intervals are only ever
integer pairs; `combined` is built with `Math.min(...)`/`Math.max(...)` and
can therefore be infinite, hence its `JSVal` components. -/
structure IVRangeSet where
  negative : ℤ × ℤ
  neutral : ℤ × ℤ
  positive : ℤ × ℤ
  combined : JSVal × JSVal
deriving DecidableEq, Repr

/-- Modelled from the spec: `range` from `./utils` (not in the snapshot), the
integer range generator (§2 "integer range generation"): the ascending
inclusive list of integers from `a` to `b` (empty when `b < a`); the source
uses `range(0, 31)` for the 32 candidate IVs. -/
def rangeInt (a b : ℤ) : List ℤ :=
  (List.range (b - a + 1).toNat).map (fun i : ℕ => a + (i : ℤ))

/-- `Math.min(x, ...xs)` over a nonempty integer list given as head and tail. -/
def listMinD (h : ℤ) (t : List ℤ) : ℤ := t.foldl min h

/-- `Math.max(x, ...xs)` over a nonempty integer list given as head and tail. -/
def listMaxD (h : ℤ) (t : List ℤ) : ℤ := t.foldl max h

/-- `Math.min(...xs)` over an arbitrary (spread) integer list: `Infinity`
when the list is empty. -/
def jsMin (xs : List ℤ) : JSVal :=
  match xs with
  | [] => JSVal.posInf
  | h :: t => JSVal.num (listMinD h t)

/-- `Math.max(...xs)` over an arbitrary (spread) integer list: `-Infinity`
when the list is empty. -/
def jsMax (xs : List ℤ) : JSVal :=
  match xs with
  | [] => JSVal.negInf
  | h :: t => JSVal.num (listMaxD h t)

/-- The shared `combined`-interval computation (source lines 192–195 and
218–221): `[Math.min(...pairs.map(v => v[0]).filter(v => v !== -1)),
Math.max(...pairs.map(v => v[1]).filter(v => v !== -1))]`. -/
def combineRanges (pairs : List (ℤ × ℤ)) : JSVal × JSVal :=
  (jsMin ((pairs.map Prod.fst).filter (fun v => v ≠ -1)),
   jsMax ((pairs.map Prod.snd).filter (fun v => v ≠ -1)))

/-- The `Tracker` record (from `../reducers/route/types`, not in the
snapshot) restricted to the fields read by the translated functions, typed
from their uses in the source and the spec (§3).  `staticNature` models the
composite `tracker.staticNature && NATURES[tracker.staticNature]` lookup
(the `NATURES` table resolves a nature name to its `NatureDefinition`);
`evSegments` models `tracker.evSegments[startingLevel]?.[level]?.[stat] ?? 0`
as a total function with the `?? 0` default folded in, and `baseStats`
models `tracker.baseStats[evo][stat]` likewise. -/
structure Tracker where
  generation : ℤ
  staticIVs : Stat → ℤ
  staticNature : Option NatureDefinition
  directInput : Bool
  directInputIVs : Stat → ℤ
  manualPositiveNature : Option Stat
  manualNegativeNature : Option Stat
  baseStats : ℕ → Stat → ℤ
  evSegments : ℕ → Stat → ℤ
  startingLevel : ℕ
  recordedStats : List (ℕ × List (ℕ × StatLine))

/-- The external stat formulas imported from `./calculations` (a repository
file absent from the snapshot).  Modelled from the spec (§4.1): three pure,
total, deterministic integer-valued functions — the distinct HP formula, the
legacy generation-≤2 formula without a modifier term, and the standard
formula with a multiplicative modifier.  The spec fixes their contracts but
not their arithmetic, so they are carried as an opaque parameter.  Argument
order follows the call sites: (level, baseStat, iv, ev[, modifier /
generation]). -/
structure StatFormulas where
  calculateHP : ℕ → ℤ → ℤ → ℤ → ℤ → ℤ
  calculateGen1Stat : ℕ → ℤ → ℤ → ℤ → ℤ
  calculateStat : ℕ → ℤ → ℤ → ℤ → ℚ → ℤ

/-- `calculateStatOrHP` (source lines 43–48): HP dispatches to the HP
formula unconditionally; generation ≤ 2 uses the legacy formula; otherwise
the standard formula with the modifier. -/
def calculateStatOrHP (F : StatFormulas) (stat : Stat) (level : ℕ)
    (baseStat iv ev : ℤ) (modifier : ℚ) (generation : ℤ) : ℤ :=
  if stat = Stat.hp then F.calculateHP level baseStat iv ev generation
  else if generation ≤ 2 then F.calculateGen1Stat level baseStat iv ev
  else F.calculateStat level baseStat iv ev modifier

/-- One step of the per-regime observation fold (source lines 162–184): the
body of the inner `reduce` over one `(level, statLine)` entry.  Over the
integer model the `!Number.isFinite(min) || !Number.isFinite(max)` guards of
line 165 are vacuous, leaving the `min === -1` sentinel test; the falsy test
`!statLine?.[stat]` skips an absent or zero entry. -/
def narrowStep (F : StatFormulas) (stat : Stat) (t : Tracker) (modifier : ℚ)
    (baseStat : ℤ) (acc : ℤ × ℤ) (entry : ℕ × StatLine) : ℤ × ℤ :=
  if acc.1 = -1 then (-1, -1)
  else if entry.2.get stat = none ∨ entry.2.get stat = some 0 then acc
  else
    let matchingStats := (rangeInt acc.1 acc.2).filter (fun possibleIV =>
      some (calculateStatOrHP F stat entry.1 baseStat possibleIV
        (t.evSegments entry.1 stat) modifier t.generation) = entry.2.get stat)
    match matchingStats with
    | [] => (-1, -1)
    | m :: ms => (max acc.1 (listMinD m ms), min acc.2 (listMaxD m ms))

/-- The nested observation fold of one regime (source lines 157–185),
starting from an arbitrary accumulator: the outer `reduce` runs over the
evolution stages of `recordedStats`, the inner one over that stage's
`(level, statLine)` entries, threading one `[min, max]` accumulator through
both. -/
def regimeFoldFrom (F : StatFormulas) (stat : Stat) (t : Tracker)
    (modifier : ℚ) (acc : ℤ × ℤ) (entries : List (ℕ × List (ℕ × StatLine))) :
    ℤ × ℤ :=
  entries.foldl
    (fun a e => e.2.foldl (narrowStep F stat t modifier (t.baseStats e.1 stat)) a)
    acc

/-- One regime's interval in the observed-data path: the fold of all
recorded observations starting from `[0, 31]` (source line 185). -/
def regimeRange (F : StatFormulas) (stat : Stat) (t : Tracker)
    (modifier : ℚ) : ℤ × ℤ :=
  regimeFoldFrom F stat t modifier (0, 31) t.recordedStats

/-- The `clampNegative` condition of source lines 124 and 139:
`!staticNatureDefinition || (minus === stat && plus !== stat)`. -/
def clampNegative (natDef : Option NatureDefinition) (stat : Stat) : Bool :=
  match natDef with
  | none => true
  | some nd => decide (nd.minus = stat ∧ nd.plus ≠ stat)

/-- The `clampPositive` condition of source lines 125 and 140. -/
def clampPositive (natDef : Option NatureDefinition) (stat : Stat) : Bool :=
  match natDef with
  | none => true
  | some nd => decide (nd.minus ≠ stat ∧ nd.plus = stat)

/-- The `clampNeutral` condition of source lines 126 and 141. -/
def clampNeutral (natDef : Option NatureDefinition) (stat : Stat) : Bool :=
  match natDef with
  | none => true
  | some nd =>
      decide ((nd.minus = stat ∧ nd.plus = stat) ∨ (nd.minus ≠ stat ∧ nd.plus ≠ stat))

/-- The `restrictPositive` condition of source line 143:
`manualPositiveNature !== null && (manualPositiveNature !== stat ||
manualNegativeNature === stat)`. -/
def restrictPositive (t : Tracker) (stat : Stat) : Bool :=
  decide (t.manualPositiveNature ≠ none ∧
    (t.manualPositiveNature ≠ some stat ∨ t.manualNegativeNature = some stat))

/-- The `restrictNeutral` condition of source line 144. -/
def restrictNeutral (t : Tracker) (stat : Stat) : Bool :=
  decide ((t.manualPositiveNature = some stat ∨ t.manualNegativeNature = some stat) ∧
    ¬(t.manualPositiveNature = some stat ∧ t.manualNegativeNature = some stat))

/-- The `restrictNegative` condition of source line 145. -/
def restrictNegative (t : Tracker) (stat : Stat) : Bool :=
  decide (t.manualNegativeNature ≠ none ∧
    (t.manualNegativeNature ≠ some stat ∨ t.manualPositiveNature = some stat))

/-- `calculatePossibleIVRange` (source lines 119–197).  The three paths in
priority order: static IV override, direct-input mode, observed-data
inference.  In the observed path the `NATURE_MODIFIERS.reduce` that builds
the `{negative, neutral, positive}` record is unrolled into one
`regimeRange` call per key, using that key's modifier. -/
def calculatePossibleIVRange (F : StatFormulas) (stat : Stat) (t : Tracker) :
    IVRangeSet :=
  let staticIV := t.staticIVs stat
  if staticIV ≠ -1 then
    { positive := if clampPositive t.staticNature stat then (staticIV, staticIV) else (-1, -1)
      neutral := if clampNeutral t.staticNature stat then (staticIV, staticIV) else (-1, -1)
      negative := if clampNegative t.staticNature stat then (staticIV, staticIV) else (-1, -1)
      combined := (JSVal.num staticIV, JSVal.num staticIV) }
  else if t.directInput then
    let directInputIV := t.directInputIVs stat
    { positive :=
        if clampPositive t.staticNature stat || !(restrictPositive t stat) then
          (directInputIV, directInputIV) else (-1, -1)
      neutral :=
        if clampNeutral t.staticNature stat || !(restrictNeutral t stat) then
          (directInputIV, directInputIV) else (-1, -1)
      negative :=
        if clampNegative t.staticNature stat || !(restrictNegative t stat) then
          (directInputIV, directInputIV) else (-1, -1)
      combined := (JSVal.num directInputIV, JSVal.num directInputIV) }
  else
    let negative := regimeRange F stat t (natureModifier NatureKey.negative)
    let neutral := regimeRange F stat t (natureModifier NatureKey.neutral)
    let positive := regimeRange F stat t (natureModifier NatureKey.positive)
    { positive := positive
      negative := negative
      neutral := neutral
      combined := combineRanges [positive, negative, neutral] }

/-- `calculatePossibleNature` (source lines 227–251).  `ConfirmedNature` is
the pair (decreased stat or null, increased stat or null), modelled as
`Option Stat × Option Stat`; the `Object.entries(ivRanges)` traversals walk
the stats in `STATS` order (the record is built by a `STATS.reduce`,
preserving that insertion order). -/
def calculatePossibleNature (ivRanges : Stat → IVRangeSet) (t : Tracker) :
    Option Stat × Option Stat :=
  match t.staticNature with
  | some nd => (some nd.minus, some nd.plus)
  | none =>
    let confirmedNegative : Option Stat :=
      match t.manualNegativeNature with
      | some s => some s
      | none =>
          STATS.find? (fun s => decide (s ≠ Stat.hp) &&
            decide ((ivRanges s).positive.1 = -1) && decide ((ivRanges s).neutral.1 = -1))
    let confirmedPositive : Option Stat :=
      match t.manualPositiveNature with
      | some s => some s
      | none =>
          STATS.find? (fun s => decide (s ≠ Stat.hp) &&
            decide ((ivRanges s).negative.1 = -1) && decide ((ivRanges s).neutral.1 = -1))
    let possibleNegatives :=
      STATS.filter (fun s => decide (s ≠ Stat.hp) && decide ((ivRanges s).negative.1 ≠ -1))
    let possiblePositives :=
      STATS.filter (fun s => decide (s ≠ Stat.hp) && decide ((ivRanges s).positive.1 ≠ -1))
    if possibleNegatives.length = 0 ∨ possiblePositives.length = 0 then
      (some Stat.attack, some Stat.attack)
    else
      let negativeByExclusion :=
        if confirmedPositive.isSome ∧ possibleNegatives.length = 1 then
          possibleNegatives.head?
        else none
      let positiveByExclusion :=
        if confirmedNegative.isSome ∧ possiblePositives.length = 1 then
          possiblePositives.head?
        else none
      ((match confirmedNegative with
        | some s => some s
        | none => negativeByExclusion),
       (match confirmedPositive with
        | some s => some s
        | none => positiveByExclusion))

/-- `calculateAllPossibleIVRanges` (source lines 199–225): compute the
preliminary per-stat range sets, resolve the nature, then rebuild each
stat's `combined` interval from the regime intervals still admissible under
the resolved nature. -/
def calculateAllPossibleIVRanges (F : StatFormulas) (t : Tracker) :
    Stat → IVRangeSet :=
  let preliminaryResults : Stat → IVRangeSet := fun s => calculatePossibleIVRange F s t
  let cn : Option Stat × Option Stat :=
    if t.generation ≤ 2 then (some Stat.attack, some Stat.attack)
    else calculatePossibleNature preliminaryResults t
  fun stat =>
    let ivRanges := preliminaryResults stat
    let relevantRanges : List (ℤ × ℤ) := List.filterMap id
      [ if cn.2 ≠ none ∧ (cn.2 ≠ some stat ∨ cn.1 = some stat) then none
        else some ivRanges.positive,
        if (cn.2 = some stat ∨ cn.1 = some stat) ∧ ¬(cn.2 = some stat ∧ cn.1 = some stat) then
          none
        else some ivRanges.neutral,
        if cn.1 ≠ none ∧ (cn.1 ≠ some stat ∨ cn.2 = some stat) then none
        else some ivRanges.negative ]
    { ivRanges with combined := combineRanges relevantRanges }

/-- `HIDDEN_POWER_TYPES` (source lines 10–27): the fixed 16-name list. -/
def HIDDEN_POWER_TYPES : List String :=
  [ "Fighting", "Flying", "Poison", "Ground", "Rock", "Bug", "Ghost", "Steel",
    "Fire", "Water", "Grass", "Electric", "Psychic", "Ice", "Dragon", "Dark" ]

/-- `getIVValuesInSection` (source lines 323–327). -/
def getIVValuesInSection (p : ℤ × ℤ) : List ℤ :=
  if p.1 = -1 ∨ p.2 = -1 then [] else rangeInt p.1 p.2

/-- `getUniqueIVValuesInRangeSet` (source lines 329–338); the
`[...new Set([...])]` deduplication is modelled by `List.dedup` (identical
underlying set and hence identical element counts, which is all the
probability computation reads). -/
def getUniqueIVValuesInRangeSet (ivRange : IVRangeSet) (stat : Stat)
    (cn : Option Stat × Option Stat) : List ℤ :=
  if cn.1 = some stat then getIVValuesInSection ivRange.negative
  else if cn.2 = some stat then getIVValuesInSection ivRange.positive
  else
    ((if cn.1 = none then getIVValuesInSection ivRange.negative else []) ++
      getIVValuesInSection ivRange.neutral ++
      (if cn.2 = none then getIVValuesInSection ivRange.positive else [])).dedup

/-- `calculateOddnessProbababilityOfStat` (source lines 340–346, name kept
from the source including its spelling).  The JS remainder `x % 2` is the
truncated remainder, `Int.tmod`. -/
def calculateOddnessProbababilityOfStat (ivRange : IVRangeSet) (stat : Stat)
    (cn : Option Stat × Option Stat) (odd : Bool) : ℚ :=
  let values := getUniqueIVValuesInRangeSet ivRange stat cn
  if values.length = 0 then 0
  else ((values.filter (fun x => Int.tmod x 2 = if odd then 1 else 0)).length : ℚ) /
    (values.length : ℚ)

/-- A `StatLSBSet` (source line 348): one parity bit per stat, in the fixed
order hp / attack / defense / spAttack / spDefense / speed. -/
abbrev StatLSBSet := Bool × Bool × Bool × Bool × Bool × Bool

/-- `calculateHiddenPowerProbability` (source lines 350–366). -/
def calculateHiddenPowerProbability (ivs : Stat → IVRangeSet)
    (cn : Option Stat × Option Stat) (c : StatLSBSet) : ℚ :=
  calculateOddnessProbababilityOfStat (ivs Stat.hp) Stat.hp cn c.1
    * calculateOddnessProbababilityOfStat (ivs Stat.attack) Stat.attack cn c.2.1
    * calculateOddnessProbababilityOfStat (ivs Stat.defense) Stat.defense cn c.2.2.1
    * calculateOddnessProbababilityOfStat (ivs Stat.spAttack) Stat.spAttack cn c.2.2.2.1
    * calculateOddnessProbababilityOfStat (ivs Stat.spDefense) Stat.spDefense cn c.2.2.2.2.1
    * calculateOddnessProbababilityOfStat (ivs Stat.speed) Stat.speed cn c.2.2.2.2.2

/-- The 64-element boolean cartesian product enumerated by
`new CartesianProduct([false,true], ×6)` (source lines 372–379), as a nested
enumeration; the enumeration order only feeds the first-maximum tie-break. -/
def statLSBCombos : List StatLSBSet :=
  [false, true].flatMap (fun b1 =>
    [false, true].flatMap (fun b2 =>
      [false, true].flatMap (fun b3 =>
        [false, true].flatMap (fun b4 =>
          [false, true].flatMap (fun b5 =>
            [false, true].map (fun b6 => (b1, b2, b3, b4, b5, b6)))))))

/-- The bit weight of one parity flag (`value ? 1 : 0`, source line 390). -/
def bitVal (b : Bool) : ℕ := if b then 1 else 0

/-- The hidden-power index of a winning bit pattern (source line 392):
`floor(((hp + atk*2 + def*4 + speed*8 + spAtk*16 + spDef*32) * 15) / 63)`.
All intermediate values are small integers represented exactly in JS floats,
and the quotient is never within rounding distance of an integer unless
exact, so the floored float division is natural-number floor division. -/
def hiddenPowerIndex (c : StatLSBSet) : ℕ :=
  (bitVal c.1 + bitVal c.2.1 * 2 + bitVal c.2.2.1 * 4 + bitVal c.2.2.2.2.2 * 8 +
    bitVal c.2.2.2.1 * 16 + bitVal c.2.2.2.2.1 * 32) * 15 / 63

/-- `calculateHiddenPowerType` (source lines 368–393): score all 64 parity
combinations, keep the first one of strictly maximal probability (the fold
starts at probability 0 with no combination), and map it through
`HIDDEN_POWER_TYPES`. -/
def calculateHiddenPowerType (ivs : Stat → IVRangeSet)
    (cn : Option Stat × Option Stat) : Option String :=
  let probabilities := statLSBCombos.map (fun c =>
    (c, calculateHiddenPowerProbability ivs cn c))
  let mostProbableCombination :=
    probabilities.foldl
      (fun acc value => if value.2 > acc.1 then (value.2, some value.1) else acc)
      ((0 : ℚ), (none : Option StatLSBSet))
  match mostProbableCombination.2 with
  | none => none
  | some c => HIDDEN_POWER_TYPES.get? (hiddenPowerIndex c)

/-- A JavaScript number as returned by `parseInt`: an integer or `NaN`. -/
inductive JSNum where
  | int : ℤ → JSNum
  | nan
deriving DecidableEq, Repr

/-- A value of the `any`-typed result of `castRouteVariableAsType`:
`undefined`, a number, a boolean, or a string. -/
inductive JSValueOut where
  | undef
  | num : JSNum → JSValueOut
  | bool : Bool → JSValueOut
  | str : String → JSValueOut
deriving DecidableEq, Repr

/-- The leading-digit extraction of `parseInt(value, 10)`: skip leading
whitespace, skip one optional sign, take the run of decimal digits. -/
def parseIntDigits (s : String) : List Char :=
  let cs := s.data.dropWhile Char.isWhitespace
  let rest := match cs with
    | '-' :: r => r
    | '+' :: r => r
    | r => r
  rest.takeWhile Char.isDigit

/-- The sign factor read by `parseInt(value, 10)`. -/
def parseIntSign (s : String) : ℤ :=
  match s.data.dropWhile Char.isWhitespace with
  | '-' :: _ => -1
  | _ => 1

/-- The numeric value of a list of decimal digit characters. -/
def digitsToNat (ds : List Char) : ℕ :=
  ds.foldl (fun acc c => acc * 10 + (c.toNat - 48)) 0

/-- Modelled from the environment: `parseInt(value, 10)` — skip leading
whitespace and an optional sign, parse the maximal run of leading decimal
digits, and yield `NaN` when that run is empty (trailing garbage is
ignored). -/
def jsParseInt (s : String) : JSNum :=
  match parseIntDigits s with
  | [] => JSNum.nan
  | ds => JSNum.int (parseIntSign s * (digitsToNat ds : ℤ))

/-- `castRouteVariableAsType` (source lines 396–409).  The
`RouteVariableType` tag (from `../reducers/route/types`, absent from the
snapshot) is a string per the spec (§6: number / boolean / string type
tags); the `switch` compares it to the literals below, every other tag
falling to `default`. -/
def castRouteVariableAsType (type : String) (value : Option String) : JSValueOut :=
  match value with
  | none => JSValueOut.undef
  | some v =>
    if type = "number" then JSValueOut.num (jsParseInt v)
    else if type = "boolean" then JSValueOut.bool (decide (v = "true"))
    else JSValueOut.str v

/-- Split a character list at every occurrence of `sep`, JS
`String.prototype.split` style: the empty input yields one empty segment,
and separators at the ends yield empty segments. -/
def splitOnChar (sep : Char) : List Char → List (List Char)
  | [] => [[]]
  | c :: rest =>
    let r := splitOnChar sep rest
    if c = sep then [] :: r
    else
      match r with
      | [] => [[c]]
      | h :: t => (c :: h) :: t

/-- Join character-list segments with a single separator character between
consecutive segments. -/
def joinSep (sep : Char) : List (List Char) → List Char
  | [] => []
  | [p] => p
  | p :: ps => p ++ sep :: joinSep sep ps

/-- The decimal digit character of `d` (for `d < 10`). -/
def digitChar : ℕ → Char
  | 0 => '0'
  | 1 => '1'
  | 2 => '2'
  | 3 => '3'
  | 4 => '4'
  | 5 => '5'
  | 6 => '6'
  | 7 => '7'
  | 8 => '8'
  | 9 => '9'
  | _ => '0'

/-- Fuel-driven digit renderer: with fuel at least the digit count of `n`,
the canonical decimal digit string of `n`, most significant digit first. -/
def natCharsAux : ℕ → ℕ → List Char
  | 0, _ => []
  | fuel + 1, n =>
    if n < 10 then [digitChar n]
    else natCharsAux fuel (n / 10) ++ [digitChar (n % 10)]

/-- The canonical decimal digit string of a natural number, most significant
digit first (`n + 1` is always enough fuel). -/
def natChars (n : ℕ) : List Char := natCharsAux (n + 1) n

/-- The canonical decimal rendering of an integer (a leading minus sign for
negative values), as emitted for array elements by `JSON.stringify`. -/
def intChars (z : ℤ) : List Char :=
  if z < 0 then '-' :: natChars z.natAbs else natChars z.natAbs

/-- Modelled from the environment: `JSON.stringify` applied to an integer
array — the bracketed comma-separated canonical decimal renderings, with no
whitespace, exactly as JS prints it. -/
def jsonStringifyIntArray (xs : List ℤ) : String :=
  String.mk ('[' :: joinSep ',' (xs.map intChars) ++ [']'])

/-- The JSON whitespace characters (space, tab, LF, CR) are exactly
`Char.isWhitespace`; this drops a leading run of them. -/
def skipWs (cs : List Char) : List Char := cs.dropWhile Char.isWhitespace

/-- Drop JSON whitespace from both ends of a character list (also the ASCII
model of `String.prototype.trim` for the inputs arising here). -/
def trimChars (cs : List Char) : List Char :=
  ((cs.dropWhile Char.isWhitespace).reverse.dropWhile Char.isWhitespace).reverse

/-- One numeric token of a JSON integer array: an optional minus sign
followed by a nonempty run of decimal digits with no leading zero (JSON
rejects numerals such as `007`; the single digit `0` and `-0` are valid). -/
def parseIntTokenChars (cs : List Char) : Option ℤ :=
  if cs.head? = some '-' then
    let ds := cs.tail
    if ds ≠ [] ∧ ds.all Char.isDigit ∧ (ds.length = 1 ∨ ds.head? ≠ some '0') then
      some (-(digitsToNat ds : ℤ))
    else none
  else if cs ≠ [] ∧ cs.all Char.isDigit ∧ (cs.length = 1 ∨ cs.head? ≠ some '0') then
    some ((digitsToNat cs : ℤ))
  else none

/-- Traverse a list through an `Option`-producing function, failing if any
element fails. -/
def mapOption (f : α → Option β) : List α → Option (List β)
  | [] => some []
  | a :: as =>
    match f a, mapOption f as with
    | some b, some bs => some (b :: bs)
    | _, _ => none

/-- Modelled from the environment: `JSON.parse`-and-destructure on the
stat-line grammar — a JSON array whose elements are all integer numerals,
with JSON whitespace permitted around the array and around every element,
exactly as `JSON.parse` permits it for such arrays.  `none` means only that
the input is outside this integer-array grammar; whether the program then
fails or succeeds with non-integer content is decided by `jsParseThrows`
below. -/
def parseJsonIntArrayChars (cs : List Char) : Option (List ℤ) :=
  let t := trimChars cs
  if t.head? = some '[' ∧ t.getLast? = some ']' ∧ 2 ≤ t.length then
    let inner := trimChars ((t.drop 1).dropLast)
    if inner = [] then some []
    else mapOption (fun tok => parseIntTokenChars (trimChars tok)) (splitOnChar ',' inner)
  else none

/-- Characters that can occur inside a JSON number token; one maximal run
of them over-approximates a JSON number. -/
def jsonNumberChar (c : Char) : Bool :=
  c.isDigit || c = '-' || c = '+' || c = '.' || c = 'e' || c = 'E'

/-- Scan a JSON string body after its opening quote: a backslash consumes
the following character and an unescaped quote closes the string; `none`
(an unterminated string) is a certain `JSON.parse` failure. -/
def skipJsonStringBody : List Char → Option (List Char)
  | [] => none
  | [ '\\' ] => none
  | '\\' :: _ :: r2 => skipJsonStringBody r2
  | '"' :: rest => some rest
  | _ :: rest => skipJsonStringBody rest

/-- Parsing mode of the syntactic JSON skipper: one value, or the
element/member loop of an array / object (`true` right after the opening
bracket). -/
inductive JsonMode where
  | one
  | arrItems : Bool → JsonMode
  | objItems : Bool → JsonMode

/-- Fuel-driven syntactic JSON skipper: recognizes one JSON value (mode
`one`) or a bracket-terminated element/member list, returning the remaining
input.  It over-approximates `JSON.parse` acceptance: `none` is returned
only on texts `JSON.parse` certainly rejects, while exhausted fuel or a
truncated input accept conservatively (`some []`), so no text accepted by
`JSON.parse` is ever rejected. -/
def skipJsonValue : ℕ → JsonMode → List Char → Option (List Char)
  | 0, _, _ => some []
  | fuel + 1, JsonMode.one, cs =>
    match skipWs cs with
    | [] => none
    | c :: rest =>
      if c = '"' then skipJsonStringBody rest
      else if c = '[' then skipJsonValue fuel (JsonMode.arrItems true) rest
      else if c = '{' then skipJsonValue fuel (JsonMode.objItems true) rest
      else if c = 't' then
        if rest.take 3 = [ 'r', 'u', 'e' ] then some (rest.drop 3) else none
      else if c = 'f' then
        if rest.take 4 = [ 'a', 'l', 's', 'e' ] then some (rest.drop 4) else none
      else if c = 'n' then
        if rest.take 3 = [ 'u', 'l', 'l' ] then some (rest.drop 3) else none
      else if jsonNumberChar c then some (rest.dropWhile jsonNumberChar)
      else none
  | fuel + 1, JsonMode.arrItems first, cs =>
    match skipWs cs with
    | [] => some []
    | c :: rest =>
      if c = ']' then some rest
      else
        match (if first then some (c :: rest) else if c = ',' then some rest else none) with
        | none => none
        | some t2 =>
          match skipJsonValue fuel JsonMode.one t2 with
          | none => none
          | some t3 => skipJsonValue fuel (JsonMode.arrItems false) t3
  | fuel + 1, JsonMode.objItems first, cs =>
    match skipWs cs with
    | [] => some []
    | c :: rest =>
      if c = '}' then some rest
      else
        match (if first then some (c :: rest) else if c = ',' then some rest else none) with
        | none => none
        | some t2 =>
          match skipWs t2 with
          | [] => some []
          | c2 :: rest2 =>
            if c2 = '"' then
              match skipJsonStringBody rest2 with
              | none => none
              | some t4 =>
                match skipWs t4 with
                | [] => some []
                | c3 :: rest3 =>
                  if c3 = ':' then
                    match skipJsonValue fuel JsonMode.one rest3 with
                    | none => none
                    | some t6 => skipJsonValue fuel (JsonMode.objItems false) t6
                  else none
            else none

/-- Modelled from the environment: `true` exactly when the source's `try`
block — `arrayToStatLine(JSON.parse(rawStats))` — certainly throws: either
the text (after surrounding whitespace) does not open an array or string
(numbers, `true`/`false`/`null` and objects parse to non-iterable values,
so destructuring throws a TypeError), or it opens one that the syntactic
skipper rejects or that leaves trailing garbage.  Because the skipper
over-approximates `JSON.parse` acceptance, `true` here implies the program
takes the `catch` path. -/
def jsParseThrows (cs : List Char) : Bool :=
  match skipWs cs with
  | [] => true
  | c :: _ =>
    if c = '[' ∨ c = '"' then
      match skipJsonValue (cs.length + 1) JsonMode.one cs with
      | none => true
      | some rest2 => !(skipWs rest2).isEmpty
    else true

/-- `arrayToStatLine` (source lines 455–457): destructure the first six
array elements into a stat line; a missing element destructures to
`undefined` (`none`), and extra elements are ignored. -/
def arrayToStatLine (xs : List ℤ) : StatLine :=
  { hp := xs.get? 0
    attack := xs.get? 1
    defense := xs.get? 2
    spAttack := xs.get? 3
    spDefense := xs.get? 4
    speed := xs.get? 5 }

/-- `parseStatLine` (source lines 459–467).  The result's second component
counts the invocations of the caller-supplied `onError` callback: a certain
`JSON.parse`/destructure failure takes the `catch` path — the all-zero
fallback line with one callback — and an integer stat-line array parses to
its values with no callback.  The remaining inputs, texts `JSON.parse` may
accept whose destructured content lies outside the integer stat-line domain
(fractional numerals, top-level strings, nested arrays, …), are outside
this integer embedding and are mapped to `none`; the claims under
verification do not concern them. -/
def parseStatLine (rawStats : String) : Option (StatLine × ℕ) :=
  if jsParseThrows rawStats.data then some (arrayToStatLine [0, 0, 0, 0, 0, 0], 1)
  else
    match parseJsonIntArrayChars rawStats.data with
    | some xs => some (arrayToStatLine xs, 0)
    | none => none

/-- Modelled from the spec: `TYPE_NAMES` from `./pokemonTypes` (not in the
snapshot), the fixed type-name set (§8.9 guarantees at least that
lowercase "fire" and "flying" are members); populated with the standard
lowercase type names. -/
def TYPE_NAMES : List String :=
  [ "normal", "fighting", "flying", "poison", "ground", "rock", "bug", "ghost",
    "steel", "fire", "water", "grass", "electric", "psychic", "ice", "dragon",
    "dark", "fairy" ]

/-- ASCII model of `x.trim().toLowerCase()` applied to one slash-separated
segment, packed back into a string. -/
def normalizeTypeSegment (cs : List Char) : String :=
  String.mk ((trimChars cs).map Char.toLower)

/-- The normalized segment list `rawTypes.split('/').map(x =>
x.trim().toLowerCase())` (source line 470). -/
def typeSegmentsOf (raw : String) : List String :=
  (splitOnChar '/' raw.data).map normalizeTypeSegment

/-- `parseTypeDefinition` (source lines 469–481).  The second component
lists the arguments of the `onError` invocations.  Line 474 tests the found
segment for truthiness (`if (invalidSegment)`): a found invalid segment
that is the empty string is falsy in JS, so it does not trigger the error
branch and the segments (empty one included) are returned with no callback;
only a nonempty invalid segment is reported, once, with the empty list as
result. -/
def parseTypeDefinition (rawTypes : String) : List String × List String :=
  let typeSegments := typeSegmentsOf rawTypes
  match typeSegments.find? (fun seg => !(TYPE_NAMES.contains seg)) with
  | some invalidSegment =>
    if invalidSegment ≠ ("" : String) then ([], [invalidSegment])
    else (typeSegments, [])
  | none => (typeSegments, [])

/-- The spec's interval invariant for an integer interval: a valid closed
sub-range of [0, 31] with min ≤ max, or the sentinel `[-1, -1]`. -/
abbrev ivIntervalOk (p : ℤ × ℤ) : Prop :=
  (0 ≤ p.1 ∧ p.1 ≤ p.2 ∧ p.2 ≤ 31) ∨ (p.1 = -1 ∧ p.2 = -1)

/-- The spec's interval invariant read on a `combined` interval: its
components are finite numbers forming a valid sub-range of [0, 31] or the
sentinel pair. -/
abbrev ivIntervalOkJS (p : JSVal × JSVal) : Prop :=
  match p with
  | (JSVal.num a, JSVal.num b) => ivIntervalOk (a, b)
  | _ => False

instance instDecIvIntervalOkJS : (p : JSVal × JSVal) → Decidable (ivIntervalOkJS p)
  | (JSVal.num a, JSVal.num b) => inferInstanceAs (Decidable (ivIntervalOk (a, b)))
  | (JSVal.num _, JSVal.posInf) => isFalse (fun h => h)
  | (JSVal.num _, JSVal.negInf) => isFalse (fun h => h)
  | (JSVal.posInf, JSVal.num _) => isFalse (fun h => h)
  | (JSVal.posInf, JSVal.posInf) => isFalse (fun h => h)
  | (JSVal.posInf, JSVal.negInf) => isFalse (fun h => h)
  | (JSVal.negInf, JSVal.num _) => isFalse (fun h => h)
  | (JSVal.negInf, JSVal.posInf) => isFalse (fun h => h)
  | (JSVal.negInf, JSVal.negInf) => isFalse (fun h => h)

/-- Well-formedness of the externally-owned tracker fields the IV paths
read: static IVs are `-1` (unset) or actual IVs in [0, 31], and
direct-input IVs are IVs in [0, 31]. -/
abbrev wfTracker (t : Tracker) : Prop :=
  ∀ s : Stat,
    (t.staticIVs s = -1 ∨ (0 ≤ t.staticIVs s ∧ t.staticIVs s ≤ 31)) ∧
      (0 ≤ t.directInputIVs s ∧ t.directInputIVs s ≤ 31)

/-- A concrete instantiation of the external stat formulas, used only to
evaluate the translated code on concrete inputs. -/
def exampleFormulas : StatFormulas :=
  { calculateHP := fun level baseStat iv ev _ => baseStat + iv + ev + (level : ℤ) + 10
    calculateGen1Stat := fun level baseStat iv ev => baseStat + iv + ev + (level : ℤ) + 5
    calculateStat := fun level baseStat iv ev _ => baseStat + iv + ev + (level : ℤ) + 5 }

/-- An observation line recording an HP value of 999, unreachable from any
IV in [0, 31] under `exampleFormulas` at level 5 with base stat 45. -/
def statLine999 : StatLine :=
  { hp := some 999, attack := none, defense := none, spAttack := none,
    spDefense := none, speed := none }

/-- A tracker in the observed-data path whose single recorded observation
contradicts every regime for HP. -/
def contradictionTracker : Tracker :=
  { generation := 3
    staticIVs := fun _ => -1
    staticNature := none
    directInput := false
    directInputIVs := fun _ => 0
    manualPositiveNature := none
    manualNegativeNature := none
    baseStats := fun _ _ => 45
    evSegments := fun _ _ => 0
    startingLevel := 5
    recordedStats := [(0, [(5, statLine999)])] }

/-- A tracker in direct-input mode with no static IV and no static nature,
whose manually pinned increased stat is `attack`. -/
def directInputTracker : Tracker :=
  { generation := 5
    staticIVs := fun _ => -1
    staticNature := none
    directInput := true
    directInputIVs := fun _ => 7
    manualPositiveNature := some Stat.attack
    manualNegativeNature := none
    baseStats := fun _ _ => 45
    evSegments := fun _ _ => 0
    startingLevel := 5
    recordedStats := [] }

lemma listMinD_mem : ∀ (t : List ℤ) (h : ℤ), listMinD h t ∈ h :: t := by
  intro t
  induction t with
  | nil => intro h; simp [listMinD]
  | cons a t ih =>
    intro h
    have hstep : listMinD h (a :: t) = listMinD (min h a) t := rfl
    rw [hstep]
    rcases List.mem_cons.1 (ih (min h a)) with h1 | h1
    · rw [h1]
      rcases min_choice h a with he | he <;> rw [he]
      · exact List.mem_cons_self _ _
      · exact List.mem_cons_of_mem _ (List.mem_cons_self _ _)
    · exact List.mem_cons_of_mem _ (List.mem_cons_of_mem _ h1)

lemma listMinD_le : ∀ (t : List ℤ) (h x : ℤ), x ∈ h :: t → listMinD h t ≤ x := by
  intro t
  induction t with
  | nil =>
    intro h x hx
    rcases List.mem_cons.1 hx with he | he
    · rw [he]; exact le_refl _
    · exact absurd he (List.not_mem_nil x)
  | cons a t ih =>
    intro h x hx
    have hstep : listMinD h (a :: t) = listMinD (min h a) t := rfl
    rw [hstep]
    have hmin : listMinD (min h a) t ≤ min h a :=
      ih (min h a) (min h a) (List.mem_cons_self _ _)
    rcases List.mem_cons.1 hx with he | he1
    · rw [he]; exact le_trans hmin (min_le_left _ _)
    rcases List.mem_cons.1 he1 with he | he2
    · rw [he]; exact le_trans hmin (min_le_right _ _)
    · exact ih (min h a) x (List.mem_cons_of_mem _ he2)

lemma listMaxD_mem : ∀ (t : List ℤ) (h : ℤ), listMaxD h t ∈ h :: t := by
  intro t
  induction t with
  | nil => intro h; simp [listMaxD]
  | cons a t ih =>
    intro h
    have hstep : listMaxD h (a :: t) = listMaxD (max h a) t := rfl
    rw [hstep]
    rcases List.mem_cons.1 (ih (max h a)) with h1 | h1
    · rw [h1]
      rcases max_choice h a with he | he <;> rw [he]
      · exact List.mem_cons_self _ _
      · exact List.mem_cons_of_mem _ (List.mem_cons_self _ _)
    · exact List.mem_cons_of_mem _ (List.mem_cons_of_mem _ h1)

lemma le_listMaxD : ∀ (t : List ℤ) (h x : ℤ), x ∈ h :: t → x ≤ listMaxD h t := by
  intro t
  induction t with
  | nil =>
    intro h x hx
    rcases List.mem_cons.1 hx with he | he
    · rw [he]; exact le_refl _
    · exact absurd he (List.not_mem_nil x)
  | cons a t ih =>
    intro h x hx
    have hstep : listMaxD h (a :: t) = listMaxD (max h a) t := rfl
    rw [hstep]
    have hmax : max h a ≤ listMaxD (max h a) t :=
      ih (max h a) (max h a) (List.mem_cons_self _ _)
    rcases List.mem_cons.1 hx with he | he1
    · rw [he]; exact le_trans (le_max_left _ _) hmax
    rcases List.mem_cons.1 he1 with he | he2
    · rw [he]; exact le_trans (le_max_right _ _) hmax
    · exact ih (max h a) x (List.mem_cons_of_mem _ he2)

lemma mem_rangeInt {a b x : ℤ} : x ∈ rangeInt a b ↔ a ≤ x ∧ x ≤ b := by
  constructor
  · intro hx
    rcases List.mem_map.1 hx with ⟨i, hi, he⟩
    rw [List.mem_range] at hi
    omega
  · intro hx
    refine List.mem_map.2 ⟨(x - a).toNat, ?_, ?_⟩
    · rw [List.mem_range]; omega
    · omega

lemma foldl_preserve {α β : Type _} (step : β → α → β) (P : β → Prop)
    (hstep : ∀ b a, P b → P (step b a)) :
    ∀ (l : List α) (b : β), P b → P (l.foldl step b) := by
  intro l
  induction l with
  | nil => intro b hb; exact hb
  | cons a l ih => intro b hb; exact ih _ (hstep b a hb)

/-- The interval invariant threaded through the observation fold. -/
abbrev narrowInv (acc : ℤ × ℤ) : Prop :=
  acc = (-1, -1) ∨ (0 ≤ acc.1 ∧ acc.1 ≤ acc.2 ∧ acc.2 ≤ 31)

lemma narrowStep_sentinel (F : StatFormulas) (stat : Stat) (t : Tracker)
    (modifier : ℚ) (baseStat : ℤ) (entry : ℕ × StatLine) :
    narrowStep F stat t modifier baseStat (-1, -1) entry = (-1, -1) := by
  simp [narrowStep]

lemma narrowStep_inv (F : StatFormulas) (stat : Stat) (t : Tracker)
    (modifier : ℚ) (baseStat : ℤ) (acc : ℤ × ℤ) (entry : ℕ × StatLine)
    (h : narrowInv acc) :
    narrowInv (narrowStep F stat t modifier baseStat acc entry) := by
  rcases h with rfl | ⟨h0, h1, h2⟩
  · rw [narrowStep_sentinel]; exact Or.inl rfl
  unfold narrowStep
  by_cases hs : acc.1 = -1
  · exact Or.inl (by simp [hs])
  rw [if_neg hs]
  by_cases hskip : entry.2.get stat = none ∨ entry.2.get stat = some 0
  · rw [if_pos hskip]; exact Or.inr ⟨h0, h1, h2⟩
  rw [if_neg hskip]
  rcases hm : (rangeInt acc.1 acc.2).filter (fun possibleIV =>
      some (calculateStatOrHP F stat entry.1 baseStat possibleIV
        (t.evSegments entry.1 stat) modifier t.generation) = entry.2.get stat) with _ | ⟨m, ms⟩
  · exact Or.inl rfl
  · have hsub : ∀ x ∈ m :: ms, acc.1 ≤ x ∧ x ≤ acc.2 := by
      intro x hx
      have : x ∈ (rangeInt acc.1 acc.2).filter (fun possibleIV =>
          some (calculateStatOrHP F stat entry.1 baseStat possibleIV
            (t.evSegments entry.1 stat) modifier t.generation) = entry.2.get stat) := by
        rw [hm]; exact hx
      exact mem_rangeInt.1 (List.mem_filter.1 this).1
    have hmn := hsub _ (listMinD_mem ms m)
    have hmx := hsub _ (listMaxD_mem ms m)
    have hmm : listMinD m ms ≤ listMaxD m ms :=
      le_trans (listMinD_le ms m m (List.mem_cons_self _ _))
        (le_listMaxD ms m m (List.mem_cons_self _ _))
    refine Or.inr ⟨?_, ?_, ?_⟩ <;> simp only [] <;> omega

lemma regimeFoldFrom_inv (F : StatFormulas) (stat : Stat) (t : Tracker)
    (modifier : ℚ) (acc : ℤ × ℤ) (entries : List (ℕ × List (ℕ × StatLine)))
    (h : narrowInv acc) :
    narrowInv (regimeFoldFrom F stat t modifier acc entries) := by
  unfold regimeFoldFrom
  refine foldl_preserve _ narrowInv ?_ entries acc h
  intro b e hb
  exact foldl_preserve _ narrowInv
    (fun b2 e2 hb2 => narrowStep_inv F stat t modifier (t.baseStats e.1 stat) b2 e2 hb2) e.2 b hb

lemma regimeRange_inv (F : StatFormulas) (stat : Stat) (t : Tracker) (modifier : ℚ) :
    narrowInv (regimeRange F stat t modifier) :=
  regimeFoldFrom_inv F stat t modifier (0, 31) t.recordedStats (Or.inr (by norm_num))

/-- C3: the sentinel is absorbing for the per-regime observation fold — once
the running interval is `[-1, -1]`, folding any further recorded
observations (across any evolution stages and levels, for any stat formula,
stat, tracker and regime modifier) leaves it `[-1, -1]`. -/
theorem claim_C3 (F : StatFormulas) (stat : Stat) (t : Tracker) (modifier : ℚ)
    (entries : List (ℕ × List (ℕ × StatLine))) :
    regimeFoldFrom F stat t modifier (-1, -1) entries = (-1, -1) := by
  unfold regimeFoldFrom
  refine foldl_preserve _ (fun acc => acc = (-1, -1)) ?_ entries (-1, -1) rfl
  intro b e hb
  refine foldl_preserve _ (fun acc => acc = (-1, -1)) ?_ e.2 b hb
  intro b2 e2 hb2
  rw [hb2]
  exact narrowStep_sentinel F stat t modifier (t.baseStats e.1 stat) e2

/-- C6: one observation-fold step never widens the running interval: the
result is the sentinel `[-1, -1]` or an interval whose lower bound did not
decrease and whose upper bound did not increase. -/
theorem claim_C6 (F : StatFormulas) (stat : Stat) (t : Tracker) (modifier : ℚ)
    (baseStat : ℤ) (acc : ℤ × ℤ) (entry : ℕ × StatLine) :
    narrowStep F stat t modifier baseStat acc entry = (-1, -1) ∨
      (acc.1 ≤ (narrowStep F stat t modifier baseStat acc entry).1 ∧
        (narrowStep F stat t modifier baseStat acc entry).2 ≤ acc.2) := by
  unfold narrowStep
  by_cases hs : acc.1 = -1
  · exact Or.inl (by simp [hs])
  rw [if_neg hs]
  by_cases hskip : entry.2.get stat = none ∨ entry.2.get stat = some 0
  · rw [if_pos hskip]; exact Or.inr ⟨le_refl _, le_refl _⟩
  rw [if_neg hskip]
  rcases hm : (rangeInt acc.1 acc.2).filter (fun possibleIV =>
      some (calculateStatOrHP F stat entry.1 baseStat possibleIV
        (t.evSegments entry.1 stat) modifier t.generation) = entry.2.get stat) with _ | ⟨m, ms⟩
  · exact Or.inl rfl
  · exact Or.inr ⟨le_max_left _ _, min_le_left _ _⟩

lemma ivIntervalOk_of_narrowInv {p : ℤ × ℤ} (h : narrowInv p) : ivIntervalOk p := by
  rcases h with rfl | h
  · exact Or.inr ⟨rfl, rfl⟩
  · exact Or.inl h

lemma combineRanges_sentinel {pairs : List (ℤ × ℤ)}
    (h : ∀ p ∈ pairs, p = ((-1 : ℤ), (-1 : ℤ))) :
    combineRanges pairs = (JSVal.posInf, JSVal.negInf) := by
  unfold combineRanges
  have h1 : (pairs.map Prod.fst).filter (fun v => v ≠ -1) = [] := by
    rw [List.filter_eq_nil_iff]
    intro a ha
    rcases List.mem_map.1 ha with ⟨p, hp, he⟩
    rw [h p hp] at he
    simp [← he]
  have h2 : (pairs.map Prod.snd).filter (fun v => v ≠ -1) = [] := by
    rw [List.filter_eq_nil_iff]
    intro a ha
    rcases List.mem_map.1 ha with ⟨p, hp, he⟩
    rw [h p hp] at he
    simp [← he]
  rw [h1, h2]
  rfl

lemma combineRanges_valid {pairs : List (ℤ × ℤ)}
    (h : ∀ p ∈ pairs, ivIntervalOk p)
    (hne : ∃ p ∈ pairs, p ≠ ((-1 : ℤ), (-1 : ℤ))) :
    ivIntervalOkJS (combineRanges pairs) := by
  obtain ⟨p0, hp0, hp0ne⟩ := hne
  have hp0v : 0 ≤ p0.1 ∧ p0.1 ≤ p0.2 ∧ p0.2 ≤ 31 := by
    rcases h p0 hp0 with hv | ⟨hs1, hs2⟩
    · exact hv
    · exact absurd (Prod.ext hs1 hs2) hp0ne
  have hvalid : ∀ q ∈ pairs, q.1 ≠ -1 ∨ q.2 ≠ -1 → 0 ≤ q.1 ∧ q.1 ≤ q.2 ∧ q.2 ≤ 31 := by
    intro q hq hqne
    rcases h q hq with hv | ⟨hs1, hs2⟩
    · exact hv
    · rcases hqne with hc | hc <;> [exact absurd hs1 hc; exact absurd hs2 hc]
  have hlowmem : p0.1 ∈ (pairs.map Prod.fst).filter (fun v => v ≠ -1) :=
    List.mem_filter.2 ⟨List.mem_map.2 ⟨p0, hp0, rfl⟩, by
      simp only [ne_eq, decide_eq_true_eq]; omega⟩
  have hhighmem : p0.2 ∈ (pairs.map Prod.snd).filter (fun v => v ≠ -1) :=
    List.mem_filter.2 ⟨List.mem_map.2 ⟨p0, hp0, rfl⟩, by
      simp only [ne_eq, decide_eq_true_eq]; omega⟩
  unfold combineRanges
  rcases hl : (pairs.map Prod.fst).filter (fun v => v ≠ -1) with _ | ⟨l, ls⟩
  · rw [hl] at hlowmem; exact absurd hlowmem (List.not_mem_nil _)
  rcases hh : (pairs.map Prod.snd).filter (fun v => v ≠ -1) with _ | ⟨u, us⟩
  · rw [hh] at hhighmem; exact absurd hhighmem (List.not_mem_nil _)
  have hmOk : 0 ≤ listMinD l ls := by
    have hmem : listMinD l ls ∈ (pairs.map Prod.fst).filter (fun v => v ≠ -1) := by
      rw [hl]; exact listMinD_mem ls l
    have hne2 : listMinD l ls ≠ -1 := by
      have := (List.mem_filter.1 hmem).2
      simpa using this
    rcases List.mem_map.1 (List.mem_filter.1 hmem).1 with ⟨q, hq, he⟩
    have := hvalid q hq (Or.inl (by rw [he]; exact hne2))
    omega
  have hMOk : listMaxD u us ≤ 31 := by
    have hmem : listMaxD u us ∈ (pairs.map Prod.snd).filter (fun v => v ≠ -1) := by
      rw [hh]; exact listMaxD_mem us u
    have hne2 : listMaxD u us ≠ -1 := by
      have := (List.mem_filter.1 hmem).2
      simpa using this
    rcases List.mem_map.1 (List.mem_filter.1 hmem).1 with ⟨q, hq, he⟩
    have := hvalid q hq (Or.inr (by rw [he]; exact hne2))
    omega
  have hmM : listMinD l ls ≤ listMaxD u us := by
    have h1 : listMinD l ls ≤ p0.1 := by
      apply listMinD_le
      rw [← hl]; exact hlowmem
    have h2 : p0.2 ≤ listMaxD u us := by
      apply le_listMaxD
      rw [← hh]; exact hhighmem
    omega
  rw [hl, hh]
  show ivIntervalOk (listMinD l ls, listMaxD u us)
  exact Or.inl ⟨hmOk, hmM, hMOk⟩

lemma calculatePossibleIVRange_static (F : StatFormulas) (s : Stat) (t : Tracker)
    (h1 : t.staticIVs s ≠ -1) :
    calculatePossibleIVRange F s t =
      { negative := if clampNegative t.staticNature s then (t.staticIVs s, t.staticIVs s)
          else (-1, -1),
        neutral := if clampNeutral t.staticNature s then (t.staticIVs s, t.staticIVs s)
          else (-1, -1),
        positive := if clampPositive t.staticNature s then (t.staticIVs s, t.staticIVs s)
          else (-1, -1),
        combined := (JSVal.num (t.staticIVs s), JSVal.num (t.staticIVs s)) } := by
  simp [calculatePossibleIVRange, h1]

lemma calculatePossibleIVRange_direct (F : StatFormulas) (s : Stat) (t : Tracker)
    (h1 : t.staticIVs s = -1) (h2 : t.directInput = true) :
    calculatePossibleIVRange F s t =
      { negative := if clampNegative t.staticNature s || !(restrictNegative t s) then
          (t.directInputIVs s, t.directInputIVs s) else (-1, -1),
        neutral := if clampNeutral t.staticNature s || !(restrictNeutral t s) then
          (t.directInputIVs s, t.directInputIVs s) else (-1, -1),
        positive := if clampPositive t.staticNature s || !(restrictPositive t s) then
          (t.directInputIVs s, t.directInputIVs s) else (-1, -1),
        combined := (JSVal.num (t.directInputIVs s), JSVal.num (t.directInputIVs s)) } := by
  simp [calculatePossibleIVRange, h1, h2]

lemma calculatePossibleIVRange_observed (F : StatFormulas) (s : Stat) (t : Tracker)
    (h1 : t.staticIVs s = -1) (h2 : t.directInput = false) :
    calculatePossibleIVRange F s t =
      { negative := regimeRange F s t (natureModifier NatureKey.negative),
        neutral := regimeRange F s t (natureModifier NatureKey.neutral),
        positive := regimeRange F s t (natureModifier NatureKey.positive),
        combined := combineRanges
          [regimeRange F s t (natureModifier NatureKey.positive),
           regimeRange F s t (natureModifier NatureKey.negative),
           regimeRange F s t (natureModifier NatureKey.neutral)] } := by
  simp [calculatePossibleIVRange, h1, h2]

lemma calculatePossibleIVRange_ok (F : StatFormulas) (s : Stat) (t : Tracker)
    (hwf : wfTracker t) :
    ivIntervalOk (calculatePossibleIVRange F s t).negative ∧
    ivIntervalOk (calculatePossibleIVRange F s t).neutral ∧
    ivIntervalOk (calculatePossibleIVRange F s t).positive ∧
    (ivIntervalOkJS (calculatePossibleIVRange F s t).combined ∨
      ((calculatePossibleIVRange F s t).negative = (-1, -1) ∧
       (calculatePossibleIVRange F s t).neutral = (-1, -1) ∧
       (calculatePossibleIVRange F s t).positive = (-1, -1) ∧
       (calculatePossibleIVRange F s t).combined = (JSVal.posInf, JSVal.negInf))) := by
  have hdir := (hwf s).2
  by_cases h1 : t.staticIVs s ≠ -1
  · have hb : 0 ≤ t.staticIVs s ∧ t.staticIVs s ≤ 31 := by
      rcases (hwf s).1 with h | h
      · exact absurd h h1
      · exact h
    rw [calculatePossibleIVRange_static F s t h1]
    refine ⟨?_, ?_, ?_, Or.inl ?_⟩
    · show ivIntervalOk (if clampNegative t.staticNature s then
        (t.staticIVs s, t.staticIVs s) else (-1, -1))
      by_cases hc : clampNegative t.staticNature s = true
      · rw [if_pos hc]; exact Or.inl ⟨hb.1, le_refl _, hb.2⟩
      · rw [if_neg hc]; exact Or.inr ⟨rfl, rfl⟩
    · show ivIntervalOk (if clampNeutral t.staticNature s then
        (t.staticIVs s, t.staticIVs s) else (-1, -1))
      by_cases hc : clampNeutral t.staticNature s = true
      · rw [if_pos hc]; exact Or.inl ⟨hb.1, le_refl _, hb.2⟩
      · rw [if_neg hc]; exact Or.inr ⟨rfl, rfl⟩
    · show ivIntervalOk (if clampPositive t.staticNature s then
        (t.staticIVs s, t.staticIVs s) else (-1, -1))
      by_cases hc : clampPositive t.staticNature s = true
      · rw [if_pos hc]; exact Or.inl ⟨hb.1, le_refl _, hb.2⟩
      · rw [if_neg hc]; exact Or.inr ⟨rfl, rfl⟩
    · show ivIntervalOk (t.staticIVs s, t.staticIVs s)
      exact Or.inl ⟨hb.1, le_refl _, hb.2⟩
  · push_neg at h1
    by_cases h2 : t.directInput = true
    · rw [calculatePossibleIVRange_direct F s t h1 h2]
      refine ⟨?_, ?_, ?_, Or.inl ?_⟩
      · show ivIntervalOk (if clampNegative t.staticNature s || !(restrictNegative t s) then
          (t.directInputIVs s, t.directInputIVs s) else (-1, -1))
        by_cases hc : (clampNegative t.staticNature s || !(restrictNegative t s)) = true
        · rw [if_pos hc]; exact Or.inl ⟨hdir.1, le_refl _, hdir.2⟩
        · rw [if_neg hc]; exact Or.inr ⟨rfl, rfl⟩
      · show ivIntervalOk (if clampNeutral t.staticNature s || !(restrictNeutral t s) then
          (t.directInputIVs s, t.directInputIVs s) else (-1, -1))
        by_cases hc : (clampNeutral t.staticNature s || !(restrictNeutral t s)) = true
        · rw [if_pos hc]; exact Or.inl ⟨hdir.1, le_refl _, hdir.2⟩
        · rw [if_neg hc]; exact Or.inr ⟨rfl, rfl⟩
      · show ivIntervalOk (if clampPositive t.staticNature s || !(restrictPositive t s) then
          (t.directInputIVs s, t.directInputIVs s) else (-1, -1))
        by_cases hc : (clampPositive t.staticNature s || !(restrictPositive t s)) = true
        · rw [if_pos hc]; exact Or.inl ⟨hdir.1, le_refl _, hdir.2⟩
        · rw [if_neg hc]; exact Or.inr ⟨rfl, rfl⟩
      · show ivIntervalOk (t.directInputIVs s, t.directInputIVs s)
        exact Or.inl ⟨hdir.1, le_refl _, hdir.2⟩
    · have h2f : t.directInput = false := by
        cases hd : t.directInput
        · rfl
        · exact absurd hd h2
      rw [calculatePossibleIVRange_observed F s t h1 h2f]
      have hn := regimeRange_inv F s t (natureModifier NatureKey.negative)
      have hu := regimeRange_inv F s t (natureModifier NatureKey.neutral)
      have hp := regimeRange_inv F s t (natureModifier NatureKey.positive)
      refine ⟨ivIntervalOk_of_narrowInv hn, ivIntervalOk_of_narrowInv hu,
        ivIntervalOk_of_narrowInv hp, ?_⟩
      have hall : ∀ p ∈ [regimeRange F s t (natureModifier NatureKey.positive),
          regimeRange F s t (natureModifier NatureKey.negative),
          regimeRange F s t (natureModifier NatureKey.neutral)], ivIntervalOk p := by
        intro p hpmem
        rcases List.mem_cons.1 hpmem with he | he1
        · rw [he]; exact ivIntervalOk_of_narrowInv hp
        rcases List.mem_cons.1 he1 with he | he2
        · rw [he]; exact ivIntervalOk_of_narrowInv hn
        rcases List.mem_cons.1 he2 with he | he3
        · rw [he]; exact ivIntervalOk_of_narrowInv hu
        · exact absurd he3 (List.not_mem_nil p)
      by_cases hsent : regimeRange F s t (natureModifier NatureKey.positive) = (-1, -1) ∧
          regimeRange F s t (natureModifier NatureKey.negative) = (-1, -1) ∧
          regimeRange F s t (natureModifier NatureKey.neutral) = (-1, -1)
      · refine Or.inr ⟨hsent.2.1, hsent.2.2, hsent.1, ?_⟩
        apply combineRanges_sentinel
        intro p hpmem
        rcases List.mem_cons.1 hpmem with he | he1
        · rw [he]; exact hsent.1
        rcases List.mem_cons.1 he1 with he | he2
        · rw [he]; exact hsent.2.1
        rcases List.mem_cons.1 he2 with he | he3
        · rw [he]; exact hsent.2.2
        · exact absurd he3 (List.not_mem_nil p)
      · left
        apply combineRanges_valid hall
        push_neg at hsent
        by_cases ha : regimeRange F s t (natureModifier NatureKey.positive) = (-1, -1)
        · by_cases hb2 : regimeRange F s t (natureModifier NatureKey.negative) = (-1, -1)
          · refine ⟨regimeRange F s t (natureModifier NatureKey.neutral), ?_, hsent ha hb2⟩
            simp [List.mem_cons]
          · refine ⟨regimeRange F s t (natureModifier NatureKey.negative), ?_, hb2⟩
            simp [List.mem_cons]
        · refine ⟨regimeRange F s t (natureModifier NatureKey.positive), ?_, ha⟩
          simp [List.mem_cons]

lemma combineRanges_ok_or_inf {pairs : List (ℤ × ℤ)} (h : ∀ p ∈ pairs, ivIntervalOk p) :
    ivIntervalOkJS (combineRanges pairs) ∨
      combineRanges pairs = (JSVal.posInf, JSVal.negInf) := by
  by_cases hs : ∀ p ∈ pairs, p = ((-1 : ℤ), (-1 : ℤ))
  · exact Or.inr (combineRanges_sentinel hs)
  · push_neg at hs
    exact Or.inl (combineRanges_valid h hs)

lemma ivIntervalOk_of_mem_relevant (r : IVRangeSet)
    (hn : ivIntervalOk r.negative) (hu : ivIntervalOk r.neutral)
    (hp : ivIntervalOk r.positive)
    (c1 c2 c3 : Prop) [Decidable c1] [Decidable c2] [Decidable c3] :
    ∀ p ∈ List.filterMap id
      [if c1 then none else some r.positive,
       if c2 then none else some r.neutral,
       if c3 then none else some r.negative], ivIntervalOk p := by
  have key : ∀ (c : Prop) (inst : Decidable c) (x p2 : ℤ × ℤ),
      (if c then none else some x) = some p2 → p2 = x := by
    intro c inst x p2 hif
    by_cases hc : c
    · rw [if_pos hc] at hif; exact absurd hif (by simp)
    · rw [if_neg hc] at hif; exact (Option.some.inj hif).symm
  intro p hp2
  rcases List.mem_filterMap.1 hp2 with ⟨o, ho, hid⟩
  simp only [id] at hid
  rcases List.mem_cons.1 ho with he | he1
  · rw [he] at hid; rw [key c1 _ r.positive p hid]; exact hp
  rcases List.mem_cons.1 he1 with he | he2
  · rw [he] at hid; rw [key c2 _ r.neutral p hid]; exact hu
  rcases List.mem_cons.1 he2 with he | he3
  · rw [he] at hid; rw [key c3 _ r.negative p hid]; exact hn
  · exact absurd he3 (List.not_mem_nil o)

lemma calculateAllPossibleIVRanges_ok (F : StatFormulas) (t : Tracker) (s : Stat)
    (hwf : wfTracker t) :
    ivIntervalOk (calculateAllPossibleIVRanges F t s).negative ∧
    ivIntervalOk (calculateAllPossibleIVRanges F t s).neutral ∧
    ivIntervalOk (calculateAllPossibleIVRanges F t s).positive ∧
    (ivIntervalOkJS (calculateAllPossibleIVRanges F t s).combined ∨
      (calculateAllPossibleIVRanges F t s).combined = (JSVal.posInf, JSVal.negInf)) := by
  have hok := calculatePossibleIVRange_ok F s t hwf
  refine ⟨hok.1, hok.2.1, hok.2.2.1, ?_⟩
  exact combineRanges_ok_or_inf
    (ivIntervalOk_of_mem_relevant (calculatePossibleIVRange F s t)
      hok.1 hok.2.1 hok.2.2.1 _ _ _)

/-- C1 (amended): for a tracker whose static/direct IV fields are
well-formed, every regime interval produced by `calculatePossibleIVRange`
and `calculateAllPossibleIVRanges` is a valid sub-range of [0, 31] with
min ≤ max or the sentinel `[-1, -1]`, and the combined interval is likewise
valid whenever at least one regime interval feeding it survives; but when
all three regime intervals are the sentinel the combined interval is
`(Infinity, -Infinity)` — the JS `Math.min`/`Math.max` of an empty spread —
and not the sentinel, contrary to the claim as stated. -/
theorem claim_C1_amended (F : StatFormulas) (t : Tracker) (hwf : wfTracker t)
    (s : Stat) :
    (ivIntervalOk (calculatePossibleIVRange F s t).negative ∧
     ivIntervalOk (calculatePossibleIVRange F s t).neutral ∧
     ivIntervalOk (calculatePossibleIVRange F s t).positive ∧
     (ivIntervalOkJS (calculatePossibleIVRange F s t).combined ∨
       ((calculatePossibleIVRange F s t).negative = (-1, -1) ∧
        (calculatePossibleIVRange F s t).neutral = (-1, -1) ∧
        (calculatePossibleIVRange F s t).positive = (-1, -1) ∧
        (calculatePossibleIVRange F s t).combined = (JSVal.posInf, JSVal.negInf)))) ∧
    (ivIntervalOk (calculateAllPossibleIVRanges F t s).negative ∧
     ivIntervalOk (calculateAllPossibleIVRanges F t s).neutral ∧
     ivIntervalOk (calculateAllPossibleIVRanges F t s).positive ∧
     (ivIntervalOkJS (calculateAllPossibleIVRanges F t s).combined ∨
       (calculateAllPossibleIVRanges F t s).combined = (JSVal.posInf, JSVal.negInf))) :=
  ⟨calculatePossibleIVRange_ok F s t hwf, calculateAllPossibleIVRanges_ok F t s hwf⟩

/-- C1 counterexample: a tracker whose single recorded observation (HP 999)
contradicts every regime yields all three regime intervals `[-1, -1]`, and
the combined interval is then `(Infinity, -Infinity)` — neither a valid
sub-range of [0, 31] nor the sentinel — refuting the claim as stated. -/
theorem claim_C1_counterexample :
    (calculatePossibleIVRange exampleFormulas Stat.hp contradictionTracker).negative
        = (-1, -1) ∧
    (calculatePossibleIVRange exampleFormulas Stat.hp contradictionTracker).neutral
        = (-1, -1) ∧
    (calculatePossibleIVRange exampleFormulas Stat.hp contradictionTracker).positive
        = (-1, -1) ∧
    (calculatePossibleIVRange exampleFormulas Stat.hp contradictionTracker).combined
        = (JSVal.posInf, JSVal.negInf) ∧
    ¬ ivIntervalOkJS
        (calculatePossibleIVRange exampleFormulas Stat.hp contradictionTracker).combined := by
  decide

/-- C1 witness: the amended theorem applied to a concrete well-formed
tracker. -/
theorem claim_C1_witness :
    wfTracker contradictionTracker ∧
      ivIntervalOk
        (calculatePossibleIVRange exampleFormulas Stat.attack contradictionTracker).negative :=
  ⟨by decide,
    (claim_C1_amended exampleFormulas contradictionTracker (by decide) Stat.attack).1.1⟩

/-- C2 (amended): in direct-input mode with no static IV and no static
nature, `calculatePossibleIVRange` returns `[directInputIV, directInputIV]`
for every regime regardless of the manually pinned increased/decreased stat
selections: without a static nature the clamp conditions are vacuously true
and short-circuit the manual-pin restriction tests, so the pins never force
a sentinel (they only matter when a static nature is also set). -/
theorem claim_C2_amended (F : StatFormulas) (s : Stat) (t : Tracker)
    (h1 : t.staticIVs s = -1) (h2 : t.directInput = true)
    (h3 : t.staticNature = none) :
    calculatePossibleIVRange F s t =
      { negative := (t.directInputIVs s, t.directInputIVs s)
        neutral := (t.directInputIVs s, t.directInputIVs s)
        positive := (t.directInputIVs s, t.directInputIVs s)
        combined := (JSVal.num (t.directInputIVs s), JSVal.num (t.directInputIVs s)) } := by
  rw [calculatePossibleIVRange_direct F s t h1 h2]
  simp [clampNegative, clampNeutral, clampPositive, h3]

/-- C2 counterexample: `directInputTracker` is in direct-input mode with no
static IV and no static nature, and pins `attack` as the increased stat;
the claim then requires the positive regime of `speed` to be the sentinel,
but the code returns `[7, 7]` (the direct-input IV). -/
theorem claim_C2_counterexample :
    directInputTracker.staticIVs Stat.speed = -1 ∧
    directInputTracker.directInput = true ∧
    directInputTracker.staticNature = none ∧
    directInputTracker.manualPositiveNature = some Stat.attack ∧
    Stat.attack ≠ Stat.speed ∧
    (calculatePossibleIVRange exampleFormulas Stat.speed directInputTracker).positive
        = (7, 7) ∧
    (calculatePossibleIVRange exampleFormulas Stat.speed directInputTracker).positive
        ≠ (-1, -1) := by
  decide

/-- C2 witness: the amended theorem applied to the concrete direct-input
tracker. -/
theorem claim_C2_witness :
    calculatePossibleIVRange exampleFormulas Stat.speed directInputTracker =
      { negative := (7, 7), neutral := (7, 7), positive := (7, 7)
        combined := (JSVal.num 7, JSVal.num 7) } :=
  claim_C2_amended exampleFormulas Stat.speed directInputTracker (by decide) (by decide)
    (by decide)

/-- An IV range set with every regime interval the sentinel. -/
def sentinelRangeSet : IVRangeSet :=
  { negative := (-1, -1), neutral := (-1, -1), positive := (-1, -1)
    combined := (JSVal.posInf, JSVal.negInf) }

/-- C5: with no static nature configured, if no non-HP stat has a viable
negative regime or no non-HP stat has a viable positive regime,
`calculatePossibleNature` returns the fixed fallback pair
(`attack`, `attack`) — a total, defined result, not a failure. -/
theorem claim_C5 (ivRanges : Stat → IVRangeSet) (t : Tracker)
    (h1 : t.staticNature = none)
    (h2 : STATS.filter (fun s => decide (s ≠ Stat.hp) &&
            decide ((ivRanges s).negative.1 ≠ -1)) = [] ∨
          STATS.filter (fun s => decide (s ≠ Stat.hp) &&
            decide ((ivRanges s).positive.1 ≠ -1)) = []) :
    calculatePossibleNature ivRanges t = (some Stat.attack, some Stat.attack) := by
  have hcond :
      (STATS.filter (fun s => decide (s ≠ Stat.hp) &&
        decide ((ivRanges s).negative.1 ≠ -1))).length = 0 ∨
      (STATS.filter (fun s => decide (s ≠ Stat.hp) &&
        decide ((ivRanges s).positive.1 ≠ -1))).length = 0 := by
    rcases h2 with h | h
    · exact Or.inl (by rw [h]; rfl)
    · exact Or.inr (by rw [h]; rfl)
  simp only [calculatePossibleNature, h1]
  rw [if_pos hcond]

/-- C5 witness: the fallback pair on a concrete all-sentinel range set. -/
theorem claim_C5_witness :
    calculatePossibleNature (fun _ => sentinelRangeSet) contradictionTracker =
      (some Stat.attack, some Stat.attack) :=
  claim_C5 (fun _ => sentinelRangeSet) contradictionTracker (by decide)
    (Or.inl (by decide))

lemma oddProb_nonneg (r : IVRangeSet) (s : Stat) (cn : Option Stat × Option Stat)
    (odd : Bool) : 0 ≤ calculateOddnessProbababilityOfStat r s cn odd := by
  simp only [calculateOddnessProbababilityOfStat]
  split
  · exact le_refl (0 : ℚ)
  · positivity

lemma hpProb_nonneg (ivs : Stat → IVRangeSet) (cn : Option Stat × Option Stat)
    (c : StatLSBSet) : 0 ≤ calculateHiddenPowerProbability ivs cn c := by
  unfold calculateHiddenPowerProbability
  exact mul_nonneg (mul_nonneg (mul_nonneg (mul_nonneg (mul_nonneg
    (oddProb_nonneg _ _ _ _) (oddProb_nonneg _ _ _ _)) (oddProb_nonneg _ _ _ _))
    (oddProb_nonneg _ _ _ _)) (oddProb_nonneg _ _ _ _)) (oddProb_nonneg _ _ _ _)

lemma hpFold_some_stays :
    ∀ (l : List (StatLSBSet × ℚ)) (q : ℚ) (c : StatLSBSet),
      ((l.foldl (fun acc value => if value.2 > acc.1 then (value.2, some value.1) else acc)
        (q, some c)).2 : Option StatLSBSet) ≠ none := by
  intro l
  induction l with
  | nil => intro q c; simp
  | cons v l ih =>
    intro q c
    simp only [List.foldl_cons]
    show ((l.foldl (fun acc value => if value.2 > acc.1 then (value.2, some value.1) else acc)
      (if v.2 > q then (v.2, some v.1) else (q, some c))).2 : Option StatLSBSet) ≠ none
    by_cases hv : v.2 > q
    · rw [if_pos hv]; exact ih v.2 v.1
    · rw [if_neg hv]; exact ih q c

lemma hpFold_none_iff :
    ∀ (l : List (StatLSBSet × ℚ)) (q : ℚ),
      (((l.foldl (fun acc value => if value.2 > acc.1 then (value.2, some value.1) else acc)
        (q, (none : Option StatLSBSet))).2 = none) ↔ ∀ v ∈ l, v.2 ≤ q) := by
  intro l
  induction l with
  | nil => intro q; simp
  | cons v l ih =>
    intro q
    simp only [List.foldl_cons]
    show ((l.foldl (fun acc value => if value.2 > acc.1 then (value.2, some value.1) else acc)
      (if v.2 > q then (v.2, some v.1) else (q, none))).2 = none) ↔ ∀ v2 ∈ v :: l, v2.2 ≤ q
    by_cases hv : v.2 > q
    · rw [if_pos hv]
      constructor
      · intro hc
        exact absurd hc (hpFold_some_stays l v.2 v.1)
      · intro hall
        exact absurd hv (not_lt.2 (hall v (List.mem_cons_self _ _)))
    · rw [if_neg hv]
      rw [ih q]
      constructor
      · intro hall v2 hmem
        rcases List.mem_cons.1 hmem with he | he
        · rw [he]; exact not_lt.1 hv
        · exact hall v2 he
      · intro hall v2 hmem
        exact hall v2 (List.mem_cons_of_mem _ hmem)

/-- C4: `calculateHiddenPowerType` returns null exactly when all 64 parity
combinations have probability zero; any returned name is one of the fixed
16; and the weighted-sum index always lies in [0, 15]. -/
theorem claim_C4 (ivs : Stat → IVRangeSet) (cn : Option Stat × Option Stat) :
    (calculateHiddenPowerType ivs cn = none ↔
      ∀ c ∈ statLSBCombos, calculateHiddenPowerProbability ivs cn c = 0) ∧
    (∀ ty : String, calculateHiddenPowerType ivs cn = some ty →
      ty ∈ HIDDEN_POWER_TYPES) ∧
    (∀ c : StatLSBSet, hiddenPowerIndex c < 16) := by
  have hidx : ∀ c : StatLSBSet, hiddenPowerIndex c < 16 := by decide
  have hnone : (((statLSBCombos.map
        (fun c => (c, calculateHiddenPowerProbability ivs cn c))).foldl
        (fun acc value => if value.2 > acc.1 then (value.2, some value.1) else acc)
        ((0 : ℚ), (none : Option StatLSBSet))).2 = none) ↔
      ∀ c ∈ statLSBCombos, calculateHiddenPowerProbability ivs cn c = 0 := by
    rw [hpFold_none_iff]
    constructor
    · intro h c hc
      have := h (c, calculateHiddenPowerProbability ivs cn c) (List.mem_map.2 ⟨c, hc, rfl⟩)
      exact le_antisymm this (hpProb_nonneg ivs cn c)
    · intro h v hv
      rcases List.mem_map.1 hv with ⟨c, hc, he⟩
      rw [← he]
      exact le_of_eq (h c hc)
  refine ⟨?_, ?_, hidx⟩
  · unfold calculateHiddenPowerType
    rcases hE : (((statLSBCombos.map
        (fun c => (c, calculateHiddenPowerProbability ivs cn c))).foldl
        (fun acc value => if value.2 > acc.1 then (value.2, some value.1) else acc)
        ((0 : ℚ), (none : Option StatLSBSet))).2) with _ | c
    · simp only [hE]
      simp only [true_iff, eq_self_iff_true]
      exact hnone.1 hE
    · simp only [hE]
      have hlt : hiddenPowerIndex c < HIDDEN_POWER_TYPES.length := hidx c
      rw [List.get?_eq_get hlt]
      constructor
      · intro hc2
        exact absurd hc2 (by simp)
      · intro hall
        have h2 := hnone.2 hall
        rw [hE] at h2
        exact absurd h2 (by simp)
  · intro ty hty
    unfold calculateHiddenPowerType at hty
    rcases hE : (((statLSBCombos.map
        (fun c => (c, calculateHiddenPowerProbability ivs cn c))).foldl
        (fun acc value => if value.2 > acc.1 then (value.2, some value.1) else acc)
        ((0 : ℚ), (none : Option StatLSBSet))).2) with _ | c
    · simp only [hE] at hty
      exact absurd hty (by simp)
    · simp only [hE] at hty
      exact List.get?_mem hty

/-- C4 witness: on an all-sentinel range set every combination has
probability zero and the resolver returns null. -/
theorem claim_C4_witness :
    calculateHiddenPowerType (fun _ => sentinelRangeSet) (none, none) = none :=
  (claim_C4 (fun _ => sentinelRangeSet) (none, none)).1.mpr
    (of_decide_eq_true (by with_unfolding_all rfl))

/-- C9: `castRouteVariableAsType` returns `undefined` for an undefined raw
value under every type tag; for a defined string it returns the base-10
`parseInt` result under the tag `number`, the comparison with the literal
string `true` under the tag `boolean`, and the raw string unchanged under
every other tag. -/
theorem claim_C9 :
    (∀ ty : String, castRouteVariableAsType ty none = JSValueOut.undef) ∧
    (∀ v : String, castRouteVariableAsType ("number") (some v) =
      JSValueOut.num (jsParseInt v)) ∧
    (∀ v : String, castRouteVariableAsType ("boolean") (some v) =
      JSValueOut.bool (decide (v = ("true" : String)))) ∧
    (∀ ty v : String, ty ≠ ("number" : String) → ty ≠ ("boolean" : String) →
      castRouteVariableAsType ty (some v) = JSValueOut.str v) := by
  refine ⟨fun ty => rfl, fun v => ?_, fun v => ?_, fun ty v h1 h2 => ?_⟩
  · simp [castRouteVariableAsType]
  · simp [castRouteVariableAsType]
  · simp [castRouteVariableAsType, h1, h2]

/-- C9 witness: the theorem applied at concrete tags and strings, with the
other-tag hypotheses discharged at the tag `level`. -/
theorem claim_C9_witness :
    castRouteVariableAsType ("level") (some ("x7")) = JSValueOut.str ("x7") ∧
    castRouteVariableAsType ("number") (some ("42")) = JSValueOut.num (jsParseInt ("42")) ∧
    jsParseInt ("42") = JSNum.int 42 ∧
    castRouteVariableAsType ("junk") none = JSValueOut.undef :=
  ⟨claim_C9.2.2.2 ("level") ("x7") (by decide) (by decide),
   claim_C9.2.1 ("42"), by decide, claim_C9.1 ("junk")⟩

/-- C10: under the tag `number`, a defined string with no parseable leading
integer (empty digit run after optional whitespace and sign) is cast to the
number `NaN` — no error is raised and no zero/default is substituted. -/
theorem claim_C10 (v : String) (h : parseIntDigits v = []) :
    castRouteVariableAsType ("number") (some v) = JSValueOut.num JSNum.nan := by
  have hp : jsParseInt v = JSNum.nan := by
    unfold jsParseInt
    rw [h]
  simp [castRouteVariableAsType, hp]

/-- C10 witness: the theorem applied at the empty string and at `abc`. -/
theorem claim_C10_witness :
    parseIntDigits ("abc") = [] ∧ parseIntDigits (("" : String)) = [] ∧
    castRouteVariableAsType ("number") (some ("abc")) = JSValueOut.num JSNum.nan ∧
    castRouteVariableAsType ("number") (some (("" : String))) = JSValueOut.num JSNum.nan :=
  ⟨by decide, by decide, claim_C10 ("abc") (by decide), claim_C10 (("" : String)) (by decide)⟩

/-- C8 counterexample: `Fire//Flying` contains a slash-separated token
whose normalized form — the empty string — is outside `TYPE_NAMES`, yet the
program returns all three segments and never invokes the callback: the
truthiness test `if (invalidSegment)` on source line 474 treats the found
empty segment as falsy and skips the error branch. -/
theorem claim_C8_counterexample :
    (("" : String)) ∈ typeSegmentsOf ("Fire//Flying") ∧
    (("" : String)) ∉ TYPE_NAMES ∧
    parseTypeDefinition ("Fire//Flying") =
      ([("fire" : String), ("" : String), ("flying" : String)], []) := by
  decide

/-- C8 (amended): `parseTypeDefinition` on `Fire/Flying` yields the two
lowercase type names with no callback; when the first slash-separated
segment whose trimmed lowercase form is outside `TYPE_NAMES` is nonempty,
the result is the empty list plus exactly one callback invocation carrying
that normalized segment; but when that first invalid segment is the empty
string, its falsiness skips the error branch and every segment is returned
with no callback. -/
theorem claim_C8_amended :
    parseTypeDefinition ("Fire/Flying") = ([("fire" : String), ("flying" : String)], []) ∧
    (∀ (raw seg : String),
      (typeSegmentsOf raw).find? (fun sg => !(TYPE_NAMES.contains sg)) = some seg →
      seg ≠ ("" : String) →
      parseTypeDefinition raw = ([], [seg])) ∧
    (∀ raw : String,
      (typeSegmentsOf raw).find? (fun sg => !(TYPE_NAMES.contains sg)) =
        some (("" : String)) →
      parseTypeDefinition raw = (typeSegmentsOf raw, [])) := by
  refine ⟨by decide, fun raw seg h hne => ?_, fun raw h => ?_⟩
  · simp only [parseTypeDefinition, h]
    rw [if_pos hne]
  · simp only [parseTypeDefinition, h]
    rw [if_neg (by simp)]

/-- C8 witness: the amended theorem applied at a nonempty invalid segment
and at an empty invalid segment. -/
theorem claim_C8_witness :
    parseTypeDefinition ("Firre/Flying") = ([], [("firre" : String)]) ∧
    parseTypeDefinition ("Fire//Flying") =
      ([("fire" : String), ("" : String), ("flying" : String)], []) :=
  ⟨claim_C8_amended.2.1 ("Firre/Flying") ("firre") (by decide) (by decide),
   by
    have h := claim_C8_amended.2.2 ("Fire//Flying") (by decide)
    rw [h]
    decide⟩

lemma digitVal_digitChar {d : ℕ} (h : d < 10) : (digitChar d).toNat - 48 = d := by
  interval_cases d <;> decide

lemma digitChar_isDigit {d : ℕ} (h : d < 10) : (digitChar d).isDigit = true := by
  interval_cases d <;> decide

lemma digitsToNat_concat (l : List Char) (c : Char) :
    digitsToNat (l ++ [c]) = digitsToNat l * 10 + (c.toNat - 48) := by
  unfold digitsToNat
  rw [List.foldl_append]
  rfl

lemma natCharsAux_spec : ∀ (fuel n : ℕ), n < fuel →
    digitsToNat (natCharsAux fuel n) = n ∧ natCharsAux fuel n ≠ [] ∧
      (natCharsAux fuel n).all Char.isDigit = true := by
  intro fuel
  induction fuel with
  | zero => intro n h; omega
  | succ fuel ih =>
    intro n h
    have hunf : natCharsAux (fuel + 1) n = if n < 10 then [digitChar n]
        else natCharsAux fuel (n / 10) ++ [digitChar (n % 10)] := rfl
    rw [hunf]
    by_cases h10 : n < 10
    · rw [if_pos h10]
      refine ⟨?_, by simp, ?_⟩
      · have hv := digitVal_digitChar h10
        simp [digitsToNat]
        omega
      · simp [digitChar_isDigit h10]
    · rw [if_neg h10]
      have hrec := ih (n / 10) (by omega)
      refine ⟨?_, by simp, ?_⟩
      · rw [digitsToNat_concat, hrec.1, digitVal_digitChar (by omega)]
        omega
      · rw [List.all_append, hrec.2.2]
        simp [digitChar_isDigit (show n % 10 < 10 by omega)]

lemma natChars_digitsToNat (n : ℕ) : digitsToNat (natChars n) = n :=
  (natCharsAux_spec (n + 1) n (by omega)).1

lemma natChars_ne_nil (n : ℕ) : natChars n ≠ [] :=
  (natCharsAux_spec (n + 1) n (by omega)).2.1

lemma natChars_all_isDigit (n : ℕ) : (natChars n).all Char.isDigit = true :=
  (natCharsAux_spec (n + 1) n (by omega)).2.2

lemma natCharsAux_head_ne_zero : ∀ (fuel n : ℕ), n < fuel → 1 ≤ n →
    (natCharsAux fuel n).head? ≠ some '0' := by
  intro fuel
  induction fuel with
  | zero => intro n h; omega
  | succ fuel ih =>
    intro n h h1
    have hunf : natCharsAux (fuel + 1) n = if n < 10 then [digitChar n]
        else natCharsAux fuel (n / 10) ++ [digitChar (n % 10)] := rfl
    rw [hunf]
    by_cases h10 : n < 10
    · rw [if_pos h10]
      simp only [List.head?_cons, ne_eq, Option.some.injEq]
      interval_cases n <;> decide
    · rw [if_neg h10]
      have hrec := ih (n / 10) (by omega) (by omega)
      rcases hc : natCharsAux fuel (n / 10) with _ | ⟨c, t⟩
      · exact absurd hc (natCharsAux_spec fuel (n / 10) (by omega)).2.1
      · rw [hc] at hrec
        simp only [List.cons_append, List.head?_cons]
        simpa using hrec

lemma natChars_token_shape (n : ℕ) :
    (natChars n).length = 1 ∨ (natChars n).head? ≠ some '0' := by
  by_cases h10 : n < 10
  · left
    have hunf : natChars n = [digitChar n] := by
      show (if n < 10 then [digitChar n] else _) = _
      rw [if_pos h10]
    rw [hunf]
    rfl
  · right
    exact natCharsAux_head_ne_zero (n + 1) n (by omega) (by omega)

lemma isDigit_ne {c : Char} (h : c.isDigit = true) :
    c ≠ ',' ∧ c ≠ '-' ∧ c ≠ '[' ∧ c ≠ ']' := by
  refine ⟨?_, ?_, ?_, ?_⟩ <;> intro he <;> rw [he] at h <;> exact absurd h (by decide)

lemma isDigit_not_ws {c : Char} (h : c.isDigit = true) : c.isWhitespace = false := by
  by_contra hw
  rw [Bool.not_eq_false] at hw
  simp only [Char.isWhitespace, Bool.or_eq_true, decide_eq_true_eq] at hw
  rcases hw with ((he | he) | he) | he <;> subst he <;> exact absurd h (by decide)

lemma isDigit_ne_openers {c : Char} (h : c.isDigit = true) :
    c ≠ '"' ∧ c ≠ '[' ∧ c ≠ '{' ∧ c ≠ 't' ∧ c ≠ 'f' ∧ c ≠ 'n' := by
  refine ⟨?_, ?_, ?_, ?_, ?_, ?_⟩ <;> intro he <;> rw [he] at h <;>
    exact absurd h (by decide)

lemma parseIntTokenChars_intChars (z : ℤ) :
    parseIntTokenChars (intChars z) = some z := by
  by_cases hz : z < 0
  · have hi : intChars z = '-' :: natChars z.natAbs := by
      unfold intChars
      rw [if_pos hz]
    rw [hi]
    unfold parseIntTokenChars
    have hh : ('-' :: natChars z.natAbs).head? = some '-' := rfl
    rw [if_pos hh]
    simp only [List.tail_cons]
    rw [if_pos ⟨natChars_ne_nil z.natAbs, natChars_all_isDigit z.natAbs,
      natChars_token_shape z.natAbs⟩]
    rw [natChars_digitsToNat z.natAbs]
    congr 1
    omega
  · have hi : intChars z = natChars z.natAbs := by
      unfold intChars
      rw [if_neg hz]
    rw [hi]
    unfold parseIntTokenChars
    have hne := natChars_ne_nil z.natAbs
    have hall := natChars_all_isDigit z.natAbs
    have hhead : ¬((natChars z.natAbs).head? = some '-') := by
      rcases hc : natChars z.natAbs with _ | ⟨c, t⟩
      · exact absurd hc hne
      · have hcd : c.isDigit = true := by
          rw [hc] at hall
          simp only [List.all_cons, Bool.and_eq_true] at hall
          exact hall.1
        simp only [List.head?_cons, Option.some.injEq]
        exact (isDigit_ne hcd).2.1
    rw [if_neg hhead]
    rw [if_pos ⟨hne, hall, natChars_token_shape z.natAbs⟩]
    rw [natChars_digitsToNat z.natAbs]
    congr 1
    omega

lemma splitOnChar_no_sep (sep : Char) :
    ∀ (l : List Char), sep ∉ l → splitOnChar sep l = [l] := by
  intro l
  induction l with
  | nil => intro _; rfl
  | cons c rest ih =>
    intro hn
    have hc : ¬(c = sep) := fun he => hn (he ▸ List.mem_cons_self c rest)
    have hrest : sep ∉ rest := fun hm => hn (List.mem_cons_of_mem _ hm)
    show (if c = sep then [] :: splitOnChar sep rest
      else match splitOnChar sep rest with
        | [] => [[c]]
        | h :: t => (c :: h) :: t) = [c :: rest]
    rw [if_neg hc, ih hrest]

lemma splitOnChar_append (sep : Char) :
    ∀ (p rest : List Char), sep ∉ p →
      splitOnChar sep (p ++ sep :: rest) = p :: splitOnChar sep rest := by
  intro p
  induction p with
  | nil =>
    intro rest _
    show (if sep = sep then [] :: splitOnChar sep rest
      else match splitOnChar sep rest with
        | [] => [[sep]]
        | h :: t => (sep :: h) :: t) = [] :: splitOnChar sep rest
    rw [if_pos rfl]
  | cons c p ih =>
    intro rest hn
    have hc : ¬(c = sep) := fun he => hn (he ▸ List.mem_cons_self c p)
    have hp : sep ∉ p := fun hm => hn (List.mem_cons_of_mem _ hm)
    show (if c = sep then [] :: splitOnChar sep (p ++ sep :: rest)
      else match splitOnChar sep (p ++ sep :: rest) with
        | [] => [[c]]
        | h :: t => (c :: h) :: t) = (c :: p) :: splitOnChar sep rest
    rw [if_neg hc, ih rest hp]

lemma splitOnChar_joinSep (sep : Char) :
    ∀ (parts : List (List Char)), parts ≠ [] →
      (∀ p ∈ parts, sep ∉ p) →
      splitOnChar sep (joinSep sep parts) = parts := by
  intro parts
  induction parts with
  | nil => intro h _; exact absurd rfl h
  | cons p ps ih =>
    intro _ hall
    cases ps with
    | nil =>
      show splitOnChar sep p = [p]
      exact splitOnChar_no_sep sep p (hall p (List.mem_cons_self _ _))
    | cons q qs =>
      show splitOnChar sep (p ++ sep :: joinSep sep (q :: qs)) = p :: q :: qs
      rw [splitOnChar_append sep p _ (hall p (List.mem_cons_self _ _))]
      rw [ih (by simp) (fun r hr => hall r (List.mem_cons_of_mem _ hr))]

lemma mapOption_map_of {α β : Type _} (f : α → Option β) (g : β → α)
    (l : List β) (h : ∀ x ∈ l, f (g x) = some x) :
    mapOption f (l.map g) = some l := by
  induction l with
  | nil => rfl
  | cons x l ih =>
    show (match f (g x), mapOption f (l.map g) with
      | some b, some bs => some (b :: bs)
      | _, _ => none) = some (x :: l)
    rw [h x (List.mem_cons_self _ _), ih (fun y hy => h y (List.mem_cons_of_mem _ hy))]

lemma comma_not_mem_intChars (z : ℤ) : ',' ∉ intChars z := by
  intro hmem
  unfold intChars at hmem
  by_cases hz : z < 0
  · rw [if_pos hz] at hmem
    rcases List.mem_cons.1 hmem with he | he
    · exact absurd he (by decide)
    · have := List.all_eq_true.1 (natChars_all_isDigit z.natAbs) _ he
      exact absurd this (by decide)
  · rw [if_neg hz] at hmem
    have := List.all_eq_true.1 (natChars_all_isDigit z.natAbs) _ hmem
    exact absurd this (by decide)

lemma intChars_ne_nil (z : ℤ) : intChars z ≠ [] := by
  unfold intChars
  by_cases hz : z < 0
  · rw [if_pos hz]; simp
  · rw [if_neg hz]; exact natChars_ne_nil z.natAbs

lemma joinSep_ne_nil (sep : Char) (p : List Char) (ps : List (List Char))
    (hp : p ≠ []) : joinSep sep (p :: ps) ≠ [] := by
  cases ps with
  | nil => exact hp
  | cons q qs =>
    show p ++ sep :: joinSep sep (q :: qs) ≠ []
    simp

lemma dropWhile_eq_self_of_not {p : Char → Bool} :
    ∀ (l : List Char), (∀ c ∈ l, p c = false) → l.dropWhile p = l := by
  intro l h
  cases l with
  | nil => rfl
  | cons c t => simp [List.dropWhile_cons, h c (List.mem_cons_self _ _)]

lemma trimChars_eq_self (l : List Char) (h : ∀ c ∈ l, c.isWhitespace = false) :
    trimChars l = l := by
  unfold trimChars
  rw [dropWhile_eq_self_of_not l h]
  rw [dropWhile_eq_self_of_not l.reverse (fun c hc => h c (List.mem_reverse.1 hc))]
  exact List.reverse_reverse l

lemma mem_joinSep (sep : Char) :
    ∀ (parts : List (List Char)) (c : Char), c ∈ joinSep sep parts →
      c = sep ∨ ∃ p ∈ parts, c ∈ p := by
  intro parts
  induction parts with
  | nil => intro c hc; exact absurd hc (List.not_mem_nil c)
  | cons p ps ih =>
    intro c hc
    cases ps with
    | nil =>
      right
      exact ⟨p, List.mem_cons_self _ _, hc⟩
    | cons q qs =>
      have hunf : joinSep sep (p :: q :: qs) = p ++ sep :: joinSep sep (q :: qs) := rfl
      rw [hunf] at hc
      rcases List.mem_append.1 hc with h1 | h1
      · right; exact ⟨p, List.mem_cons_self _ _, h1⟩
      · rcases List.mem_cons.1 h1 with he | h2
        · left; exact he
        · rcases ih c h2 with he | ⟨r, hr, hcr⟩
          · left; exact he
          · right; exact ⟨r, List.mem_cons_of_mem _ hr, hcr⟩

lemma intChars_mem {z : ℤ} {c : Char} (h : c ∈ intChars z) :
    c = '-' ∨ c.isDigit = true := by
  unfold intChars at h
  by_cases hz : z < 0
  · rw [if_pos hz] at h
    rcases List.mem_cons.1 h with he | he
    · left; exact he
    · right; exact List.all_eq_true.1 (natChars_all_isDigit z.natAbs) _ he
  · rw [if_neg hz] at h
    right; exact List.all_eq_true.1 (natChars_all_isDigit z.natAbs) _ h

lemma intChars_not_ws (z : ℤ) : ∀ c ∈ intChars z, c.isWhitespace = false := by
  intro c hc
  rcases intChars_mem hc with he | hd
  · rw [he]; decide
  · exact isDigit_not_ws hd

lemma canonical_chars_not_ws (xs : List ℤ) :
    ∀ c ∈ '[' :: joinSep ',' (xs.map intChars) ++ [']'], c.isWhitespace = false := by
  intro c hc
  rcases List.mem_cons.1 hc with he | h1
  · rw [he]; decide
  rcases List.mem_append.1 h1 with h2 | h2
  · rcases mem_joinSep ',' _ c h2 with he | ⟨p, hp, hcp⟩
    · rw [he]; decide
    · rcases List.mem_map.1 hp with ⟨z, _, hz⟩
      rw [← hz] at hcp
      exact intChars_not_ws z c hcp
  · rcases List.mem_cons.1 h2 with he | he
    · rw [he]; decide
    · exact absurd he (List.not_mem_nil c)

lemma parse_stringify (xs : List ℤ) :
    parseJsonIntArrayChars (jsonStringifyIntArray xs).data = some xs := by
  show parseJsonIntArrayChars ('[' :: joinSep ',' (xs.map intChars) ++ [']']) = some xs
  have htrim : trimChars ('[' :: joinSep ',' (xs.map intChars) ++ [']']) =
      '[' :: joinSep ',' (xs.map intChars) ++ [']'] :=
    trimChars_eq_self _ (canonical_chars_not_ws xs)
  have hhead : ('[' :: joinSep ',' (xs.map intChars) ++ [']']).head? = some '[' := rfl
  have hlast : ('[' :: joinSep ',' (xs.map intChars) ++ [']']).getLast? = some ']' := by
    rw [show '[' :: joinSep ',' (xs.map intChars) ++ [']'] =
      ('[' :: joinSep ',' (xs.map intChars)) ++ [']'] from rfl]
    exact List.getLast?_concat _
  have hlen : 2 ≤ ('[' :: joinSep ',' (xs.map intChars) ++ [']']).length := by
    simp
  simp only [parseJsonIntArrayChars, htrim]
  rw [if_pos ⟨hhead, hlast, hlen⟩]
  have hinner : trimChars ((('[' :: joinSep ',' (xs.map intChars) ++ [']']).drop 1).dropLast)
      = joinSep ',' (xs.map intChars) := by
    rw [show ('[' :: joinSep ',' (xs.map intChars) ++ [']']).drop 1 =
      joinSep ',' (xs.map intChars) ++ [']'] from rfl]
    rw [List.dropLast_concat]
    exact trimChars_eq_self _ (fun c hc => canonical_chars_not_ws xs c
      (List.mem_cons_of_mem _ (List.mem_append.2 (Or.inl hc))))
  rw [hinner]
  cases xs with
  | nil => rfl
  | cons y ys =>
    have hne : joinSep ',' ((y :: ys).map intChars) ≠ [] := by
      rw [List.map_cons]
      exact joinSep_ne_nil ',' _ _ (intChars_ne_nil y)
    rw [if_neg hne]
    rw [splitOnChar_joinSep ',' ((y :: ys).map intChars) (by simp)
      (by
        intro p hp
        rcases List.mem_map.1 hp with ⟨z, _, he⟩
        rw [← he]
        exact comma_not_mem_intChars z)]
    exact mapOption_map_of (fun tok => parseIntTokenChars (trimChars tok)) intChars (y :: ys)
      (fun z _ => by
        show parseIntTokenChars (trimChars (intChars z)) = some z
        rw [trimChars_eq_self (intChars z) (intChars_not_ws z)]
        exact parseIntTokenChars_intChars z)

lemma skipWs_cons_of_not_ws {c : Char} {l : List Char} (h : c.isWhitespace = false) :
    skipWs (c :: l) = c :: l := by
  simp [skipWs, List.dropWhile_cons, h]

lemma dropWhile_append_of_all {p : Char → Bool} :
    ∀ (ds r : List Char), (∀ c ∈ ds, p c = true) →
      (∀ c, r.head? = some c → p c = false) →
      (ds ++ r).dropWhile p = r := by
  intro ds
  induction ds with
  | nil =>
    intro r _ hr
    cases r with
    | nil => rfl
    | cons c t => simp [List.dropWhile_cons, hr c rfl]
  | cons d ds ih =>
    intro r hall hr
    simp only [List.cons_append, List.dropWhile_cons, hall d (List.mem_cons_self _ _),
      if_true]
    exact ih r (fun c hc => hall c (List.mem_cons_of_mem _ hc)) hr

lemma jsonNumberChar_of_isDigit {c : Char} (h : c.isDigit = true) :
    jsonNumberChar c = true := by
  simp [jsonNumberChar, h]

lemma skipJsonValue_one_cons (fuel : ℕ) (c : Char) (rest cs : List Char)
    (h : skipWs cs = c :: rest) :
    skipJsonValue (fuel + 1) JsonMode.one cs =
      (if c = '"' then skipJsonStringBody rest
      else if c = '[' then skipJsonValue fuel (JsonMode.arrItems true) rest
      else if c = '{' then skipJsonValue fuel (JsonMode.objItems true) rest
      else if c = 't' then
        if rest.take 3 = [ 'r', 'u', 'e' ] then some (rest.drop 3) else none
      else if c = 'f' then
        if rest.take 4 = [ 'a', 'l', 's', 'e' ] then some (rest.drop 4) else none
      else if c = 'n' then
        if rest.take 3 = [ 'u', 'l', 'l' ] then some (rest.drop 3) else none
      else if jsonNumberChar c then some (rest.dropWhile jsonNumberChar)
      else none) := by
  simp only [skipJsonValue]
  rw [h]

lemma skipJsonValue_arr_close (fuel : ℕ) (first : Bool) (rest cs : List Char)
    (h : skipWs cs = ']' :: rest) :
    skipJsonValue (fuel + 1) (JsonMode.arrItems first) cs = some rest := by
  simp only [skipJsonValue]
  rw [h]
  rfl

lemma skipJsonValue_arr_comma (fuel : ℕ) (rest cs : List Char)
    (h : skipWs cs = ',' :: rest) :
    skipJsonValue (fuel + 1) (JsonMode.arrItems false) cs =
      (match skipJsonValue fuel JsonMode.one rest with
       | none => none
       | some t3 => skipJsonValue fuel (JsonMode.arrItems false) t3) := by
  simp only [skipJsonValue]
  rw [h]
  rfl

lemma skipJsonValue_arr_first (fuel : ℕ) (c : Char) (rest cs : List Char)
    (h : skipWs cs = c :: rest) (hne : ¬(c = ']')) :
    skipJsonValue (fuel + 1) (JsonMode.arrItems true) cs =
      (match skipJsonValue fuel JsonMode.one (c :: rest) with
       | none => none
       | some t3 => skipJsonValue fuel (JsonMode.arrItems false) t3) := by
  simp only [skipJsonValue, h]
  rw [if_neg hne]
  rfl

/-- The concatenation of the remaining canonical elements, each preceded by
its separating comma. -/
def commaTokens : List ℤ → List Char
  | [] => []
  | z :: zs => ',' :: (intChars z ++ commaTokens zs)

lemma joinSep_eq_commaTokens (y : ℤ) : ∀ (ys : List ℤ),
    joinSep ',' ((y :: ys).map intChars) = intChars y ++ commaTokens ys := by
  intro ys
  induction ys generalizing y with
  | nil => simp [joinSep, commaTokens]
  | cons q qs ih =>
    show intChars y ++ ',' :: joinSep ',' ((q :: qs).map intChars) =
      intChars y ++ (',' :: (intChars q ++ commaTokens qs))
    rw [ih q]

lemma commaTokens_bracket_head (zs : List ℤ) :
    (commaTokens zs ++ [']']).head? = some ',' ∨
      (commaTokens zs ++ [']']).head? = some ']' := by
  cases zs with
  | nil => right; rfl
  | cons z zs => left; rfl

lemma skipJson_one_intToken (fuel : ℕ) (z : ℤ) (r : List Char)
    (hr : r.head? = some ',' ∨ r.head? = some ']') :
    skipJsonValue (fuel + 1) JsonMode.one (intChars z ++ r) = some r := by
  have hrnum : ∀ c, r.head? = some c → jsonNumberChar c = false := by
    intro c hc
    rcases hr with h | h
    · rw [h] at hc
      rw [← Option.some.inj hc]
      decide
    · rw [h] at hc
      rw [← Option.some.inj hc]
      decide
  by_cases hz : z < 0
  · have hi : intChars z = '-' :: natChars z.natAbs := by
      unfold intChars
      rw [if_pos hz]
    rw [hi, List.cons_append]
    rw [skipJsonValue_one_cons fuel '-' (natChars z.natAbs ++ r) _
      (skipWs_cons_of_not_ws (by decide))]
    rw [if_neg (by decide), if_neg (by decide), if_neg (by decide), if_neg (by decide),
      if_neg (by decide), if_neg (by decide), if_pos (by decide)]
    rw [dropWhile_append_of_all (natChars z.natAbs) r
      (fun c hc => jsonNumberChar_of_isDigit
        (List.all_eq_true.1 (natChars_all_isDigit z.natAbs) _ hc)) hrnum]
  · have hi : intChars z = natChars z.natAbs := by
      unfold intChars
      rw [if_neg hz]
    rcases hc : natChars z.natAbs with _ | ⟨d, ds⟩
    · exact absurd hc (natChars_ne_nil z.natAbs)
    have hdd : d.isDigit = true := by
      have := natChars_all_isDigit z.natAbs
      rw [hc] at this
      simp only [List.all_cons, Bool.and_eq_true] at this
      exact this.1
    have hds : ∀ c ∈ ds, c.isDigit = true := by
      intro c hcm
      have := natChars_all_isDigit z.natAbs
      rw [hc] at this
      simp only [List.all_cons, Bool.and_eq_true] at this
      exact List.all_eq_true.1 this.2 _ hcm
    rw [hi, hc, List.cons_append]
    rw [skipJsonValue_one_cons fuel d (ds ++ r) _
      (skipWs_cons_of_not_ws (isDigit_not_ws hdd))]
    have ho := isDigit_ne_openers hdd
    rw [if_neg ho.1, if_neg ho.2.1, if_neg ho.2.2.1, if_neg ho.2.2.2.1,
      if_neg ho.2.2.2.2.1, if_neg ho.2.2.2.2.2, if_pos (jsonNumberChar_of_isDigit hdd)]
    rw [dropWhile_append_of_all ds r
      (fun c hcm => jsonNumberChar_of_isDigit (hds c hcm)) hrnum]

lemma skipJson_arrItems_commaTokens : ∀ (fuel : ℕ) (zs : List ℤ),
    skipJsonValue fuel (JsonMode.arrItems false) (commaTokens zs ++ [']']) = some [] := by
  intro fuel
  induction fuel with
  | zero => intro zs; rfl
  | succ fuel ih =>
    intro zs
    cases zs with
    | nil =>
      exact skipJsonValue_arr_close fuel false [] _ rfl
    | cons z zs2 =>
      have hshape : commaTokens (z :: zs2) ++ [']'] =
          ',' :: (intChars z ++ (commaTokens zs2 ++ [']'])) := by
        show (',' :: (intChars z ++ commaTokens zs2)) ++ [']'] = _
        rw [List.cons_append, List.append_assoc]
      rw [hshape]
      rw [skipJsonValue_arr_comma fuel (intChars z ++ (commaTokens zs2 ++ [']'])) _
        (skipWs_cons_of_not_ws (by decide))]
      cases fuel with
      | zero => rfl
      | succ g =>
        rw [skipJson_one_intToken g z _ (commaTokens_bracket_head zs2)]
        exact ih zs2

lemma skipJson_canonical (fuel : ℕ) (xs : List ℤ) :
    skipJsonValue (fuel + 1) JsonMode.one ('[' :: (joinSep ',' (xs.map intChars) ++ [']']))
      = some [] := by
  rw [skipJsonValue_one_cons fuel '[' (joinSep ',' (xs.map intChars) ++ [']']) _
    (skipWs_cons_of_not_ws (by decide))]
  rw [if_neg (by decide), if_pos rfl]
  cases fuel with
  | zero => rfl
  | succ f =>
    cases xs with
    | nil =>
      exact skipJsonValue_arr_close f true [] _ rfl
    | cons y ys =>
      rw [show joinSep ',' ((y :: ys).map intChars) ++ [']'] =
          intChars y ++ (commaTokens ys ++ [']']) from by
        rw [joinSep_eq_commaTokens y ys, List.append_assoc]]
      rcases hic : intChars y with _ | ⟨d, ds⟩
      · exact absurd hic (intChars_ne_nil y)
      have hdmem : d ∈ intChars y := by
        rw [hic]
        exact List.mem_cons_self _ _
      have hdnotws : d.isWhitespace = false := intChars_not_ws y d hdmem
      have hdne : ¬(d = ']') := by
        rcases intChars_mem hdmem with he | hdig
        · rw [he]; decide
        · exact (isDigit_ne hdig).2.2.2
      rw [List.cons_append]
      rw [skipJsonValue_arr_first f d (ds ++ (commaTokens ys ++ [']'])) _
        (skipWs_cons_of_not_ws hdnotws) hdne]
      cases f with
      | zero => rfl
      | succ g =>
        rw [show d :: (ds ++ (commaTokens ys ++ [']'])) =
            intChars y ++ (commaTokens ys ++ [']']) from by rw [hic]; rfl]
        rw [skipJson_one_intToken g y _ (commaTokens_bracket_head ys)]
        exact skipJson_arrItems_commaTokens (g + 1) ys

lemma jsParseThrows_canonical (xs : List ℤ) :
    jsParseThrows (jsonStringifyIntArray xs).data = false := by
  show jsParseThrows ('[' :: (joinSep ',' (xs.map intChars) ++ [']'])) = false
  have h1 : skipWs ('[' :: (joinSep ',' (xs.map intChars) ++ [']'])) =
      '[' :: (joinSep ',' (xs.map intChars) ++ [']']) :=
    skipWs_cons_of_not_ws (by decide)
  have h2 := skipJson_canonical
    (('[' :: (joinSep ',' (xs.map intChars) ++ [']'])).length) xs
  simp only [jsParseThrows, h1, h2]
  rw [if_pos (Or.inl trivial)]
  decide

/-- C7: `parseStatLine` applied to the `JSON.stringify` image of any
six-integer array reproduces exactly those six values in stat order with no
error-callback invocation; and on any input on which
`JSON.parse`-plus-destructuring certainly throws it returns the all-zero
stat line and invokes the callback exactly once. -/
theorem claim_C7 :
    (∀ a b c d e f : ℤ,
      parseStatLine (jsonStringifyIntArray [a, b, c, d, e, f]) =
        some ({ hp := some a, attack := some b, defense := some c, spAttack := some d,
                spDefense := some e, speed := some f }, 0)) ∧
    (∀ raw : String, jsParseThrows raw.data = true →
      parseStatLine raw = some (arrayToStatLine [0, 0, 0, 0, 0, 0], 1)) := by
  constructor
  · intro a b c d e f
    unfold parseStatLine
    rw [jsParseThrows_canonical [a, b, c, d, e, f]]
    rw [if_neg (by decide)]
    rw [parse_stringify [a, b, c, d, e, f]]
    rfl
  · intro raw h
    unfold parseStatLine
    rw [if_pos h]

/-- C7 witness: the round trip at a concrete array, the fallback path at a
concrete certainly-throwing string, and the whitespace-bearing array format
used by the repository route content, parsed with no callback. -/
theorem claim_C7_witness :
    parseStatLine (jsonStringifyIntArray [3, -14, 0, 7, 255, 31]) =
      some ({ hp := some 3, attack := some (-14), defense := some 0, spAttack := some 7,
              spDefense := some 255, speed := some 31 }, 0) ∧
    parseStatLine ("oops") = some (arrayToStatLine [0, 0, 0, 0, 0, 0], 1) ∧
    parseStatLine ("[1, 2, 3, 4, 5, 6]") =
      some ({ hp := some 1, attack := some 2, defense := some 3, spAttack := some 4,
              spDefense := some 5, speed := some 6 }, 0) :=
  ⟨claim_C7.1 3 (-14) 0 7 255 31, claim_C7.2 ("oops") (by decide), by decide⟩
